import Mathlib

/-!
# Stabilizing sampler (`src/src/temperature.cpp`)

A shallow embedding of the Arduino sketch: the conversion `readTemperature`,
and one call of `loop()` (priming of the 10-slot window, the stabilization
`while` loop, the final delay).  Samples live in a linearly ordered field
(the rationals for evaluation, the reals for the conversion formula); the
hardware is an explicit world: a counter of `analogRead` calls and the trace
of observable events.
-/

namespace Medisyn

/-! ## Conversion -/

/-- The constant `B` of the source (line 15): B-value of the thermistor. -/
def B : Int := 3975

/-- The local `resistance` of `readTemperature` (line 26) as a function of the
value `val` returned by `analogRead`, over a field:
`resistance = (float)(1023-val)*10000/val;` -/
def resistance {α : Type} [Field α] (val : Int) : α :=
  ((1023 - val : Int) : α) * 10000 / (val : α)

/-- The result of `readTemperature` (line 27) as a function of the value `val`
returned by `analogRead`, over a field, with the library logarithm `log`
passed in: `return 1/(log(resistance/10000)/B+1/298.15)-273.15;`.
This is the value of the code for `1 <= val <= 1022`, where no division is by
zero and the logarithm is taken of a positive number; at `val = 0` and
`val = 1023` the value of the code is that of `readTemperatureIEEE`. -/
def readTemperature {α : Type} [Field α] (log : α → α) (val : Int) : α :=
  1 / (log (resistance val / 10000) / (B : α) + 1 / (29815 / 100)) - 27315 / 100

/-- The conversion over the reals, with the natural logarithm. -/
noncomputable def readTemperatureReal (val : Int) : Real :=
  readTemperature Real.log val

/-- The raw readings of the converging scenario: ten priming readings that
alternate between 400 and 420, then 410 for ever. -/
def rawConverging (n : Nat) : Int :=
  if n < 10 then (if n % 2 = 0 then 400 else 420) else 410

/-! ## The conversion with the special values of IEEE 754 -/

/-- The values of IEEE 754 arithmetic, rounding and the sign of zero left
out: a finite number, plus infinity, minus infinity, NaN. -/
inductive FVal (α : Type) where
  | fin (x : α)
  | pinf
  | ninf
  | nan
  deriving DecidableEq, Repr

/-- Whether a value is a finite number. -/
def FVal.isFinite {α : Type} : FVal α → Bool
  | FVal.fin _ => true
  | _ => false

/-- The comparison `==` of IEEE 754: NaN is equal to nothing, itself included. -/
def FVal.feq {α : Type} [DecidableEq α] : FVal α → FVal α → Bool
  | FVal.nan, _ => false
  | _, FVal.nan => false
  | FVal.fin x, FVal.fin y => decide (x = y)
  | FVal.pinf, FVal.pinf => true
  | FVal.ninf, FVal.ninf => true
  | _, _ => false

/-- The negation of IEEE 754. -/
def FVal.neg {α : Type} [LinearOrderedField α] : FVal α → FVal α
  | FVal.fin x => FVal.fin (-x)
  | FVal.pinf => FVal.ninf
  | FVal.ninf => FVal.pinf
  | FVal.nan => FVal.nan

/-- The addition of IEEE 754: opposite infinities give NaN. -/
def FVal.add {α : Type} [LinearOrderedField α] : FVal α → FVal α → FVal α
  | FVal.nan, _ => FVal.nan
  | _, FVal.nan => FVal.nan
  | FVal.fin x, FVal.fin y => FVal.fin (x + y)
  | FVal.pinf, FVal.ninf => FVal.nan
  | FVal.ninf, FVal.pinf => FVal.nan
  | FVal.pinf, _ => FVal.pinf
  | _, FVal.pinf => FVal.pinf
  | FVal.ninf, _ => FVal.ninf
  | _, FVal.ninf => FVal.ninf

/-- The subtraction of IEEE 754. -/
def FVal.sub {α : Type} [LinearOrderedField α] (a b : FVal α) : FVal α :=
  FVal.add a (FVal.neg b)

/-- An infinity times, or divided by, a finite number `y` of positive zero
sign: the sign follows `y`, and `zero` is the result at `y = 0`. -/
def FVal.scaleInf {α : Type} [LinearOrderedField α] (positive : Bool) (y : α)
    (zero : FVal α) : FVal α :=
  if 0 < y then (if positive then FVal.pinf else FVal.ninf)
  else if y < 0 then (if positive then FVal.ninf else FVal.pinf)
  else zero

/-- The multiplication of IEEE 754: infinity times zero gives NaN. -/
def FVal.mul {α : Type} [LinearOrderedField α] : FVal α → FVal α → FVal α
  | FVal.nan, _ => FVal.nan
  | _, FVal.nan => FVal.nan
  | FVal.fin x, FVal.fin y => FVal.fin (x * y)
  | FVal.pinf, FVal.fin y => FVal.scaleInf true y FVal.nan
  | FVal.ninf, FVal.fin y => FVal.scaleInf false y FVal.nan
  | FVal.fin x, FVal.pinf => FVal.scaleInf true x FVal.nan
  | FVal.fin x, FVal.ninf => FVal.scaleInf false x FVal.nan
  | FVal.pinf, FVal.pinf => FVal.pinf
  | FVal.ninf, FVal.ninf => FVal.pinf
  | FVal.pinf, FVal.ninf => FVal.ninf
  | FVal.ninf, FVal.pinf => FVal.ninf

/-- The division of IEEE 754, without trap: a nonzero finite number over zero
gives an infinity, zero over zero and infinity over infinity give NaN, a
finite number over an infinity gives zero. -/
def FVal.div {α : Type} [LinearOrderedField α] : FVal α → FVal α → FVal α
  | FVal.nan, _ => FVal.nan
  | _, FVal.nan => FVal.nan
  | FVal.fin x, FVal.fin y =>
    if y = 0 then FVal.scaleInf true x FVal.nan else FVal.fin (x / y)
  | FVal.fin _, FVal.pinf => FVal.fin 0
  | FVal.fin _, FVal.ninf => FVal.fin 0
  | FVal.pinf, FVal.fin y => FVal.scaleInf true y FVal.pinf
  | FVal.ninf, FVal.fin y => FVal.scaleInf false y FVal.ninf
  | FVal.pinf, FVal.pinf => FVal.nan
  | FVal.pinf, FVal.ninf => FVal.nan
  | FVal.ninf, FVal.pinf => FVal.nan
  | FVal.ninf, FVal.ninf => FVal.nan

/-- The function `log` of the C library (C99, Annex F) over `logf` on the
positive finite numbers: `log(+inf) = +inf`, `log(0) = -inf`, NaN on the
negative numbers. -/
def FVal.log {α : Type} [LinearOrderedField α] (logf : α → α) : FVal α → FVal α
  | FVal.fin x => if 0 < x then FVal.fin (logf x) else if x = 0 then FVal.ninf else FVal.nan
  | FVal.pinf => FVal.pinf
  | FVal.ninf => FVal.nan
  | FVal.nan => FVal.nan

/-- The local `resistance` of `readTemperature` (line 26) with the special
values of IEEE 754: `(float)(1023-val)*10000/val`. -/
def resistanceIEEE {α : Type} [LinearOrderedField α] (val : Int) : FVal α :=
  FVal.div (FVal.mul (FVal.fin ((1023 - val : Int) : α)) (FVal.fin 10000)) (FVal.fin (val : α))

/-- The result of `readTemperature` (line 27) with the special values of
IEEE 754: `1/(log(resistance/10000)/B+1/298.15)-273.15`. -/
def readTemperatureIEEE {α : Type} [LinearOrderedField α] (logf : α → α) (val : Int) : FVal α :=
  FVal.sub
    (FVal.div (FVal.fin 1)
      (FVal.add
        (FVal.div (FVal.log logf (FVal.div (resistanceIEEE val) (FVal.fin 10000)))
          (FVal.fin (B : α)))
        (FVal.div (FVal.fin 1) (FVal.fin (29815 / 100)))))
    (FVal.fin (27315 / 100))

/-! ## The world and the locals of `loop()` -/

/-- The observable events of a run: a sample obtained by a call of
`readTemperature()` (one `analogRead`), a `delay(ms)`, a `Serial.println(v)`. -/
inductive Event (α : Type) where
  | sample (v : α)
  | delay (ms : Nat)
  | println (v : α)
  deriving DecidableEq, Repr

/-- The state of one call of `loop()`: its locals `readings`, `index`,
`equilibrium`, and the world: `pos` counts the calls of `analogRead` made so
far, `trace` lists the events so far, oldest first. -/
structure State (α : Type) where
  readings : Nat → α
  index : Nat
  equilibrium : Bool
  pos : Nat
  trace : List (Event α)

/-- The constant `windowSize` of the source (line 31). -/
def windowSize : Nat := 10

/-- The threshold `0.2` of the stability test (line 52). -/
def threshold {α : Type} [Field α] : α := 2 / 10

/-- The values printed in a trace, oldest first. -/
def emitted {α : Type} : List (Event α) → List α
  | [] => []
  | Event.println v :: t => v :: emitted t
  | _ :: t => emitted t

/-- One call of `readTemperature()` inside `loop()`: the sensor gives its
`pos`-th value, the call is recorded.  Returns the sample and the new world
part of the state; the locals are untouched. -/
def readSample {α : Type} (sensor : Nat → α) (st : State α) : α × State α :=
  (sensor st.pos,
   { st with pos := st.pos + 1, trace := st.trace ++ [Event.sample (sensor st.pos)] })

/-- The call `delay(ms)`. -/
def delay {α : Type} (ms : Nat) (st : State α) : State α :=
  { st with trace := st.trace ++ [Event.delay ms] }

/-- The body of the priming loop (lines 38-39) for loop variable `i`. -/
def primeStep {α : Type} (sensor : Nat → α) (st : State α) (i : Nat) : State α :=
  let r := readSample sensor st
  delay 1000 { r.2 with readings := Function.update r.2.readings i r.1 }

/-- The priming loop `for (int i = 0; i < windowSize; i++)` (lines 37-40). -/
def prime {α : Type} (sensor : Nat → α) (st : State α) : State α :=
  (List.range windowSize).foldl (primeStep sensor) st

/-- The body of the scan loop (lines 49-50) for loop variable `i`, on the pair
`(minTemp, maxTemp)`. -/
def scanStep {α : Type} [LinearOrder α] (readings : Nat → α) (mm : α × α) (i : Nat) : α × α :=
  let minTemp := if readings i < mm.1 then readings i else mm.1
  let maxTemp := if readings i > mm.2 then readings i else mm.2
  (minTemp, maxTemp)

/-- The linear scan (lines 46-51): the final `(minTemp, maxTemp)`. -/
def scan {α : Type} [LinearOrder α] (readings : Nat → α) : α × α :=
  (List.range' 1 (windowSize - 1)).foldl (scanStep readings) (readings 0, readings 0)

/-- The stability test `(maxTemp - minTemp) < 0.2` (line 52) on a window. -/
def stable {α : Type} [LinearOrderedField α] (readings : Nat → α) : Bool :=
  decide ((scan readings).2 - (scan readings).1 < threshold)

/-- One iteration of the body of `while (!equilibrium)` (lines 43-56). -/
def iter {α : Type} [LinearOrderedField α] (sensor : Nat → α) (st : State α) : State α :=
  let r := readSample sensor st
  let st1 : State α := { r.2 with readings := Function.update r.2.readings r.2.index r.1 }
  let st2 : State α := { st1 with index := (st1.index + 1) % windowSize }
  let st3 : State α :=
    if stable st2.readings then
      { st2 with
        equilibrium := true
        trace := st2.trace ++
          [Event.println (st2.readings (if st2.index = 0 then windowSize - 1 else st2.index - 1))] }
    else st2
  delay 1000 st3

/-- The loop `while (!equilibrium)` (lines 42-57), run for at most `fuel`
iterations. -/
def stabilize {α : Type} [LinearOrderedField α] (sensor : Nat → α) : Nat → State α → State α
  | 0, st => st
  | fuel + 1, st => if st.equilibrium then st else stabilize sensor fuel (iter sensor st)

/-- The locals at the start of `loop()` (lines 32-34): `readings` is not
initialised, it holds whatever `garbage` the stack holds; the world (`pos`,
`trace`) is what the previous calls left. -/
def enter {α : Type} (garbage : Nat → α) (pos : Nat) (trace : List (Event α)) : State α :=
  { readings := garbage, index := 0, equilibrium := false, pos := pos, trace := trace }

/-- The state when the `while` loop is reached: locals initialised, window
primed. -/
def primed {α : Type} (sensor : Nat → α) (garbage : Nat → α) (pos : Nat)
    (trace : List (Event α)) : State α :=
  prime sensor (enter garbage pos trace)

/-- One call of `loop()` (lines 30-60), its `while` loop run for at most
`fuel` iterations: `none` when the loop has not ended within `fuel`
iterations, else the state at the return of `loop()`. -/
def loop {α : Type} [LinearOrderedField α] (sensor : Nat → α) (fuel : Nat)
    (garbage : Nat → α) (pos : Nat) (trace : List (Event α)) : Option (State α) :=
  let st := stabilize sensor fuel (primed sensor garbage pos trace)
  if st.equilibrium then some (delay 20000 st) else none

/-- The events of the first `n` rounds of the priming loop, started at sensor
position `p`. -/
def primeEvents {α : Type} (sensor : Nat → α) (p : Nat) (n : Nat) : List (Event α) :=
  (List.range n).flatMap (fun i => [Event.sample (sensor (p + i)), Event.delay 1000])

/-- The window as a multiset: the values of the 10 slots of `readings`. -/
def window {α : Type} (readings : Nat → α) : Multiset α :=
  Multiset.map readings (Multiset.range windowSize)

/-- The samples number `a, a+1, ..., a+9` of the sensor, as a multiset. -/
def lastSamples {α : Type} (sensor : Nat → α) (a : Nat) : Multiset α :=
  Multiset.map (fun i => sensor (a + i)) (Multiset.range windowSize)

/-- One call of `readTemperature()` (lines 24-28) in the program state `st`,
the pin giving `analog 0, analog 1, ...` on its successive reads, with the
special values of IEEE 754: the value returned and the state after the call. -/
def readTemperatureCall {α : Type} [LinearOrderedField α] (logf : α → α)
    (analog : Nat → Int) (st : State (FVal α)) : FVal α × State (FVal α) :=
  readSample (fun n => readTemperatureIEEE logf (analog n)) st

/-- Two states of two cycles, started at sensor positions `p1`, `p2` after the
traces `tr1`, `tr2`, that differ at most in what was outside the cycle: same
`index` (in `0..9`), same `equilibrium`, same 10 slots of `readings`, same
number of samples read and same events since the start of the cycle. -/
def Sim {α : Type} (p1 p2 : Nat) (tr1 tr2 : List (Event α)) (a b : State α) : Prop :=
  a.index = b.index ∧ a.index < 10 ∧ a.equilibrium = b.equilibrium ∧
  (∃ c, a.pos = p1 + c ∧ b.pos = p2 + c) ∧
  (∃ e, a.trace = tr1 ++ e ∧ b.trace = tr2 ++ e) ∧
  ∀ i, i < 10 → a.readings i = b.readings i

/-- The largest of the samples number `a, ..., a + 9` of the sensor: the
`max(s_k..s_(k+9))` of the closed form of a cycle. -/
def windowMax {α : Type} [LinearOrder α] (sensor : Nat → α) (a : Nat) : α :=
  (Finset.range windowSize).sup' ⟨0, by simp [windowSize]⟩ (fun i => sensor (a + i))

/-- The smallest of the samples number `a, ..., a + 9` of the sensor: the
`min(s_k..s_(k+9))` of the closed form of a cycle. -/
def windowMin {α : Type} [LinearOrder α] (sensor : Nat → α) (a : Nat) : α :=
  (Finset.range windowSize).inf' ⟨0, by simp [windowSize]⟩ (fun i => sensor (a + i))

/-- The total of the delays of a trace up to its first sample (its first
`analogRead`). -/
def delayUntilSample {α : Type} : List (Event α) → Nat
  | [] => 0
  | Event.sample _ :: _ => 0
  | Event.delay ms :: t => ms + delayUntilSample t
  | Event.println _ :: t => delayUntilSample t

/-- For every `println` of a trace, oldest first, the total delay between it
and the next sample (the next `analogRead`). -/
def waitAfterPrintln {α : Type} : List (Event α) → List Nat
  | [] => []
  | Event.println _ :: t => delayUntilSample t :: waitAfterPrintln t
  | _ :: t => waitAfterPrintln t

/-! ## Basic facts about the trace -/

section Basics

variable {α : Type}

theorem emitted_append (a b : List (Event α)) : emitted (a ++ b) = emitted a ++ emitted b := by
  induction a with
  | nil => rfl
  | cons e t ih => cases e <;> simp [emitted, ih]

theorem primeEvents_succ (sensor : Nat → α) (p n : Nat) :
    primeEvents sensor p (n + 1) =
      primeEvents sensor p n ++ [Event.sample (sensor (p + n)), Event.delay 1000] := by
  simp [primeEvents, List.range_succ]

theorem emitted_primeEvents (sensor : Nat → α) (p n : Nat) :
    emitted (primeEvents sensor p n) = [] := by
  induction n with
  | zero => rfl
  | succ n ih => rw [primeEvents_succ, emitted_append, ih]; rfl

/-- The state after the first `n` rounds of the priming loop. -/
theorem primeFold_spec (sensor : Nat → α) (st : State α) (n : Nat) :
    let r := (List.range n).foldl (primeStep sensor) st
    (∀ i, r.readings i = if i < n then sensor (st.pos + i) else st.readings i) ∧
    r.index = st.index ∧ r.equilibrium = st.equilibrium ∧ r.pos = st.pos + n ∧
    r.trace = st.trace ++ primeEvents sensor st.pos n := by
  induction n with
  | zero => simp [primeEvents]
  | succ n ih =>
    obtain ⟨h1, h2, h3, h4, h5⟩ := ih
    simp only [List.range_succ, List.foldl_append, List.foldl_cons, List.foldl_nil]
    refine ⟨?_, ?_, ?_, ?_, ?_⟩
    · intro i
      simp only [primeStep, readSample, delay, Function.update_apply, h4]
      by_cases hi : i = n
      · subst hi; simp
      · rw [if_neg hi, h1 i]
        by_cases hlt : i < n
        · rw [if_pos hlt, if_pos (by omega)]
        · rw [if_neg hlt, if_neg (by omega)]
    · simpa [primeStep, readSample, delay] using h2
    · simpa [primeStep, readSample, delay] using h3
    · simp only [primeStep, readSample, delay, h4]; omega
    · simp only [primeStep, readSample, delay, h4, h5, primeEvents_succ, List.append_assoc,
        List.singleton_append]

theorem primed_readings (sensor garbage : Nat → α) (p : Nat) (tr : List (Event α)) (i : Nat) :
    (primed sensor garbage p tr).readings i = if i < 10 then sensor (p + i) else garbage i :=
  (primeFold_spec sensor (enter garbage p tr) windowSize).1 i

theorem primed_index (sensor garbage : Nat → α) (p : Nat) (tr : List (Event α)) :
    (primed sensor garbage p tr).index = 0 :=
  (primeFold_spec sensor (enter garbage p tr) windowSize).2.1

theorem primed_equilibrium (sensor garbage : Nat → α) (p : Nat) (tr : List (Event α)) :
    (primed sensor garbage p tr).equilibrium = false :=
  (primeFold_spec sensor (enter garbage p tr) windowSize).2.2.1

theorem primed_pos (sensor garbage : Nat → α) (p : Nat) (tr : List (Event α)) :
    (primed sensor garbage p tr).pos = p + 10 :=
  (primeFold_spec sensor (enter garbage p tr) windowSize).2.2.2.1

theorem primed_trace (sensor garbage : Nat → α) (p : Nat) (tr : List (Event α)) :
    (primed sensor garbage p tr).trace = tr ++ primeEvents sensor p 10 :=
  (primeFold_spec sensor (enter garbage p tr) windowSize).2.2.2.2

/-! ## One iteration of the stabilization loop -/

/-- The subscript of the emit reads the slot just written. -/
theorem emit_slot (readings : Nat → α) (index : Nat) (v : α) (h : index < 10) :
    Function.update readings index v
      (if (index + 1) % windowSize = 0 then windowSize - 1 else (index + 1) % windowSize - 1) = v := by
  have : (if (index + 1) % windowSize = 0 then windowSize - 1
      else (index + 1) % windowSize - 1) = index := by
    simp only [windowSize]; split <;> omega
  rw [this, Function.update_same]

section Iter

variable [LinearOrderedField α]

theorem iter_readings (sensor : Nat → α) (st : State α) :
    (iter sensor st).readings = Function.update st.readings st.index (sensor st.pos) := by
  simp only [iter, readSample, delay]; split <;> rfl

theorem iter_index (sensor : Nat → α) (st : State α) :
    (iter sensor st).index = (st.index + 1) % 10 := by
  simp only [iter, readSample, delay]; split <;> rfl

theorem iter_pos (sensor : Nat → α) (st : State α) :
    (iter sensor st).pos = st.pos + 1 := by
  simp only [iter, readSample, delay]; split <;> rfl

theorem iter_equilibrium (sensor : Nat → α) (st : State α) :
    (iter sensor st).equilibrium = (stable (iter sensor st).readings || st.equilibrium) := by
  rw [iter_readings]
  simp only [iter, readSample, delay]; split <;> simp_all

theorem iter_trace_stable (sensor : Nat → α) (st : State α)
    (hs : stable (Function.update st.readings st.index (sensor st.pos)) = true) :
    (iter sensor st).trace = st.trace ++ [Event.sample (sensor st.pos),
      Event.println (Function.update st.readings st.index (sensor st.pos)
        (if (st.index + 1) % windowSize = 0 then windowSize - 1
          else (st.index + 1) % windowSize - 1)),
      Event.delay 1000] := by
  simp [iter, readSample, delay, hs]

theorem iter_trace_unstable (sensor : Nat → α) (st : State α)
    (hs : stable (Function.update st.readings st.index (sensor st.pos)) = false) :
    (iter sensor st).trace = st.trace ++ [Event.sample (sensor st.pos), Event.delay 1000] := by
  simp [iter, readSample, delay, hs]

theorem emitted_iter_unstable (sensor : Nat → α) (st : State α)
    (hs : stable (iter sensor st).readings = false) :
    emitted (iter sensor st).trace = emitted st.trace := by
  rw [iter_readings] at hs
  rw [iter_trace_unstable sensor st hs, emitted_append]
  simp [emitted]

theorem emitted_iter_stable (sensor : Nat → α) (st : State α)
    (hs : stable (iter sensor st).readings = true) :
    ∃ v, emitted (iter sensor st).trace = emitted st.trace ++ [v] := by
  rw [iter_readings] at hs
  rw [iter_trace_stable sensor st hs, emitted_append]
  exact ⟨_, rfl⟩

theorem emitted_iter_stable_val (sensor : Nat → α) (st : State α) (hi : st.index < 10)
    (hs : stable (iter sensor st).readings = true) :
    emitted (iter sensor st).trace = emitted st.trace ++ [sensor st.pos] := by
  rw [iter_readings] at hs
  rw [iter_trace_stable sensor st hs, emitted_append, emit_slot _ _ _ hi]
  simp only [emitted]

/-! ## The `while` loop against plain iteration of its body -/

theorem iterate_index_lt (sensor : Nat → α) (st : State α) (hi : st.index < 10) (j : Nat) :
    ((iter sensor)^[j] st).index < 10 := by
  induction j with
  | zero => exact hi
  | succ j _ => rw [Function.iterate_succ_apply', iter_index]; omega

theorem iterate_pos (sensor : Nat → α) (st : State α) (j : Nat) :
    ((iter sensor)^[j] st).pos = st.pos + j := by
  induction j with
  | zero => rfl
  | succ j ih => rw [Function.iterate_succ_apply', iter_pos, ih]; omega

theorem stabilize_of_equilibrium (sensor : Nat → α) (n : Nat) (st : State α)
    (h : st.equilibrium = true) : stabilize sensor n st = st := by
  cases n with
  | zero => rfl
  | succ n => simp [stabilize, h]

theorem stabilize_succ_of_not (sensor : Nat → α) (n : Nat) (st : State α)
    (h : st.equilibrium = false) :
    stabilize sensor (n + 1) st = stabilize sensor n (iter sensor st) := by
  simp [stabilize, h]

theorem stabilize_add (sensor : Nat → α) (a b : Nat) (st : State α) :
    stabilize sensor (a + b) st = stabilize sensor b (stabilize sensor a st) := by
  induction a generalizing st with
  | zero => simp [stabilize]
  | succ a ih =>
    cases h : st.equilibrium with
    | true => simp [stabilize_of_equilibrium, h]
    | false =>
      rw [show a + 1 + b = (a + b) + 1 by omega, stabilize_succ_of_not _ _ _ h,
        stabilize_succ_of_not _ _ _ h, ih]

/-- While no window is stable the loop runs its body once per unit of fuel. -/
theorem stabilize_unstable (sensor : Nat → α) (n : Nat) (st : State α)
    (h : st.equilibrium = false)
    (hu : ∀ i, 1 ≤ i → i ≤ n → stable ((iter sensor)^[i] st).readings = false) :
    stabilize sensor n st = (iter sensor)^[n] st ∧
      (stabilize sensor n st).equilibrium = false ∧
      emitted (stabilize sensor n st).trace = emitted st.trace := by
  induction n generalizing st with
  | zero => exact ⟨rfl, h, rfl⟩
  | succ n ih =>
    have h1 : stable (iter sensor st).readings = false := hu 1 le_rfl (by omega)
    have he : (iter sensor st).equilibrium = false := by
      rw [iter_equilibrium, h1, h]; rfl
    have := ih (iter sensor st) he (fun i hi hin => by
      rw [← Function.iterate_succ_apply]; exact hu (i + 1) (by omega) (by omega))
    rw [stabilize_succ_of_not _ _ _ h, Function.iterate_succ_apply]
    exact ⟨this.1, this.2.1, by rw [this.2.2, emitted_iter_unstable _ _ h1]⟩

/-- The loop leaves at the first iteration whose window is stable. -/
theorem stabilize_first (sensor : Nat → α) (n j : Nat) (st : State α)
    (h : st.equilibrium = false) (hj : 1 ≤ j) (hjn : j ≤ n)
    (hu : ∀ i, 1 ≤ i → i < j → stable ((iter sensor)^[i] st).readings = false)
    (hs : stable ((iter sensor)^[j] st).readings = true) :
    stabilize sensor n st = (iter sensor)^[j] st ∧
      (stabilize sensor n st).equilibrium = true ∧
      ∃ v, emitted (stabilize sensor n st).trace = emitted st.trace ++ [v] := by
  obtain ⟨k, rfl⟩ : ∃ k, j = k + 1 := ⟨j - 1, by omega⟩
  obtain ⟨m, rfl⟩ : ∃ m, n = k + (1 + m) := ⟨n - (k + 1), by omega⟩
  obtain ⟨e1, e2, e3⟩ := stabilize_unstable sensor k st h (fun i hi hik => hu i hi (by omega))
  rw [Function.iterate_succ_apply'] at hs
  have he : (iter sensor ((iter sensor)^[k] st)).equilibrium = true := by
    rw [iter_equilibrium, hs]; rfl
  have hfin : stabilize sensor (k + (1 + m)) st = (iter sensor)^[k + 1] st := by
    rw [stabilize_add, stabilize_add, e1, stabilize_succ_of_not _ _ _ (e1 ▸ e2)]
    simp only [stabilize]
    rw [stabilize_of_equilibrium _ _ _ he, Function.iterate_succ_apply']
  rw [hfin, Function.iterate_succ_apply']
  refine ⟨rfl, he, ?_⟩
  obtain ⟨v, hv⟩ := emitted_iter_stable sensor _ hs
  exact ⟨v, by rw [hv, ← e1, e3]⟩

/-- The loop emits one value if it ends, none if it does not, whatever the fuel. -/
theorem stabilize_emitted (sensor : Nat → α) (n : Nat) (st : State α)
    (h : st.equilibrium = false) :
    ∃ l, emitted (stabilize sensor n st).trace = emitted st.trace ++ l ∧
      l.length = if (stabilize sensor n st).equilibrium then 1 else 0 := by
  induction n generalizing st with
  | zero => exact ⟨[], by simp [stabilize, h]⟩
  | succ n ih =>
    rw [stabilize_succ_of_not _ _ _ h]
    cases hs : stable (iter sensor st).readings with
    | true =>
      have he : (iter sensor st).equilibrium = true := by rw [iter_equilibrium, hs]; rfl
      obtain ⟨v, hv⟩ := emitted_iter_stable sensor _ hs
      rw [stabilize_of_equilibrium _ _ _ he]
      exact ⟨[v], hv, by simp [he]⟩
    | false =>
      have he : (iter sensor st).equilibrium = false := by rw [iter_equilibrium, hs, h]; rfl
      obtain ⟨l, hl1, hl2⟩ := ih (iter sensor st) he
      exact ⟨l, by rw [hl1, emitted_iter_unstable _ _ hs], hl2⟩

/-- Every state the loop reaches is reached by iterating its body. -/
theorem stabilize_eq_iterate (sensor : Nat → α) (n : Nat) (st : State α) :
    ∃ j, j ≤ n ∧ stabilize sensor n st = (iter sensor)^[j] st := by
  induction n generalizing st with
  | zero => exact ⟨0, le_rfl, rfl⟩
  | succ n ih =>
    cases h : st.equilibrium with
    | true => exact ⟨0, by omega, by rw [stabilize_of_equilibrium _ _ _ h]; rfl⟩
    | false =>
      obtain ⟨j, hj, e⟩ := ih (iter sensor st)
      exact ⟨j + 1, by omega, by rw [stabilize_succ_of_not _ _ _ h, e, Function.iterate_succ_apply]⟩

/-- When the loop has ended, its last iteration found a stable window, and no
earlier one did. -/
theorem stabilize_exit (sensor : Nat → α) (n : Nat) (st : State α)
    (h : st.equilibrium = false) (he : (stabilize sensor n st).equilibrium = true) :
    ∃ k, k < n ∧ ((iter sensor)^[k] st).equilibrium = false ∧
      stable (iter sensor ((iter sensor)^[k] st)).readings = true ∧
      stabilize sensor n st = iter sensor ((iter sensor)^[k] st) := by
  induction n generalizing st with
  | zero => simp [stabilize, h] at he
  | succ n ih =>
    rw [stabilize_succ_of_not _ _ _ h] at he ⊢
    cases hi : (iter sensor st).equilibrium with
    | true =>
      refine ⟨0, by omega, h, ?_, stabilize_of_equilibrium _ _ _ hi⟩
      have := iter_equilibrium sensor st
      rw [hi, h, Bool.or_false] at this
      exact this.symm
    | false =>
      obtain ⟨k, hk, e1, e2, e3⟩ := ih (iter sensor st) hi he
      exact ⟨k + 1, by omega, by rwa [Function.iterate_succ_apply],
        by rwa [Function.iterate_succ_apply], by rw [e3, Function.iterate_succ_apply]⟩

/-! ## The circular buffer -/

/-- Position of every sample in the window after `j` iterations: slot
`(j + i) % 10` holds sample number `j + i` of the cycle, for `i = 0 .. 9`. -/
theorem ring_invariant (sensor garbage : Nat → α) (p : Nat) (tr : List (Event α)) (j : Nat) :
    ((iter sensor)^[j] (primed sensor garbage p tr)).index = j % 10 ∧
    ((iter sensor)^[j] (primed sensor garbage p tr)).pos = p + 10 + j ∧
    ∀ i, i < 10 →
      ((iter sensor)^[j] (primed sensor garbage p tr)).readings ((j + i) % 10)
        = sensor (p + j + i) := by
  induction j with
  | zero =>
    refine ⟨primed_index .., primed_pos .., fun i hi => ?_⟩
    simp only [Function.iterate_zero, id_eq, primed_readings]
    rw [if_pos (by omega)]; congr 1; omega
  | succ j ih =>
    obtain ⟨h1, h2, h3⟩ := ih
    rw [Function.iterate_succ_apply']
    refine ⟨by rw [iter_index, h1]; omega, by rw [iter_pos, h2]; omega, fun i hi => ?_⟩
    rw [iter_readings, h1, h2, Function.update_apply]
    by_cases h9 : i = 9
    · subst h9; rw [if_pos (by omega)]; congr 1; omega
    · rw [if_neg (by omega), show j + 1 + i = j + (i + 1) by omega, h3 (i + 1) (by omega)]
      congr 1; omega

end Iter

/-! ## The linear scan -/

section Scan

variable [LinearOrder α]

/-- The scan loop over any list of slots: the pair only widens, it bounds the
slots visited, and both components are the start value or a slot visited. -/
theorem scanFold_spec (r : Nat → α) (l : List Nat) (mm : α × α) :
    (l.foldl (scanStep r) mm).1 ≤ mm.1 ∧ mm.2 ≤ (l.foldl (scanStep r) mm).2 ∧
    (∀ i ∈ l, (l.foldl (scanStep r) mm).1 ≤ r i ∧ r i ≤ (l.foldl (scanStep r) mm).2) ∧
    ((l.foldl (scanStep r) mm).1 = mm.1 ∨ ∃ i ∈ l, (l.foldl (scanStep r) mm).1 = r i) ∧
    ((l.foldl (scanStep r) mm).2 = mm.2 ∨ ∃ i ∈ l, (l.foldl (scanStep r) mm).2 = r i) := by
  induction l generalizing mm with
  | nil => simp
  | cons a t ih =>
    obtain ⟨h1, h2, h3, h4, h5⟩ := ih (scanStep r mm a)
    have s1 : (scanStep r mm a).1 ≤ mm.1 ∧ (scanStep r mm a).1 ≤ r a ∧
        ((scanStep r mm a).1 = mm.1 ∨ (scanStep r mm a).1 = r a) := by
      simp only [scanStep]; split
      · next h => exact ⟨le_of_lt h, le_rfl, Or.inr rfl⟩
      · next h => exact ⟨le_rfl, not_lt.mp h, Or.inl rfl⟩
    have s2 : mm.2 ≤ (scanStep r mm a).2 ∧ r a ≤ (scanStep r mm a).2 ∧
        ((scanStep r mm a).2 = mm.2 ∨ (scanStep r mm a).2 = r a) := by
      simp only [scanStep]; split
      · next h => exact ⟨le_of_lt h, le_rfl, Or.inr rfl⟩
      · next h => exact ⟨le_rfl, not_lt.mp h, Or.inl rfl⟩
    simp only [List.foldl_cons, List.mem_cons, forall_eq_or_imp, exists_eq_or_imp]
    refine ⟨h1.trans s1.1, s2.1.trans h2, ⟨⟨h1.trans s1.2.1, s2.2.1.trans h2⟩, h3⟩, ?_, ?_⟩
    · rcases h4 with h4 | h4
      · rcases s1.2.2 with e | e
        · exact Or.inl (h4.trans e)
        · exact Or.inr (Or.inl (h4.trans e))
      · exact Or.inr (Or.inr h4)
    · rcases h5 with h5 | h5
      · rcases s2.2.2 with e | e
        · exact Or.inl (h5.trans e)
        · exact Or.inr (Or.inl (h5.trans e))
      · exact Or.inr (Or.inr h5)

/-- After the scan `minTemp` is below and `maxTemp` above every slot. -/
theorem scan_bounds (r : Nat → α) (i : Nat) (hi : i < 10) :
    (scan r).1 ≤ r i ∧ r i ≤ (scan r).2 := by
  obtain ⟨h1, h2, h3, _, _⟩ := scanFold_spec r (List.range' 1 (windowSize - 1)) (r 0, r 0)
  rcases Nat.eq_zero_or_pos i with h0 | h0
  · subst h0; exact ⟨h1, h2⟩
  · exact h3 i (List.mem_range'_1.mpr ⟨h0, by simp only [windowSize]; omega⟩)

/-- After the scan `minTemp` is the value of a slot. -/
theorem scan_min_mem (r : Nat → α) : ∃ i, i < 10 ∧ (scan r).1 = r i := by
  obtain ⟨_, _, _, h4, _⟩ := scanFold_spec r (List.range' 1 (windowSize - 1)) (r 0, r 0)
  rcases h4 with h | ⟨i, hi, h⟩
  · exact ⟨0, by omega, h⟩
  · exact ⟨i, by rw [List.mem_range'_1] at hi; simp only [windowSize] at hi; omega, h⟩

/-- After the scan `maxTemp` is the value of a slot. -/
theorem scan_max_mem (r : Nat → α) : ∃ i, i < 10 ∧ (scan r).2 = r i := by
  obtain ⟨_, _, _, _, h5⟩ := scanFold_spec r (List.range' 1 (windowSize - 1)) (r 0, r 0)
  rcases h5 with h | ⟨i, hi, h⟩
  · exact ⟨0, by omega, h⟩
  · exact ⟨i, by rw [List.mem_range'_1] at hi; simp only [windowSize] at hi; omega, h⟩

/-- The scan reads the slots of its list only. -/
theorem scanFold_congr (r1 r2 : Nat → α) (l : List Nat) (mm : α × α)
    (h : ∀ i, i ∈ l → r1 i = r2 i) :
    l.foldl (scanStep r1) mm = l.foldl (scanStep r2) mm := by
  induction l generalizing mm with
  | nil => rfl
  | cons a t ih =>
    simp only [List.foldl_cons]
    rw [show scanStep r1 mm a = scanStep r2 mm a by simp only [scanStep, h a (by simp)]]
    exact ih _ (fun i hi => h i (List.mem_cons_of_mem _ hi))

/-- The scan reads the slots `0..9` only. -/
theorem scan_congr (r1 r2 : Nat → α) (h : ∀ i, i < 10 → r1 i = r2 i) : scan r1 = scan r2 := by
  unfold scan
  rw [h 0 (by omega)]
  exact scanFold_congr r1 r2 _ _ (fun i hi => by
    rw [List.mem_range'_1] at hi; simp only [windowSize] at hi; exact h i (by omega))

end Scan

section Stable

variable [LinearOrderedField α]

/-- The test passes exactly when any two slots differ by less than 0.2. -/
theorem stable_iff (r : Nat → α) :
    stable r = true ↔ ∀ i j, i < 10 → j < 10 → r i - r j < threshold := by
  simp only [stable, decide_eq_true_eq]
  constructor
  · intro h i j hi hj
    have := (scan_bounds r i hi).2
    have := (scan_bounds r j hj).1
    linarith
  · intro h
    obtain ⟨a, ha, ea⟩ := scan_min_mem r
    obtain ⟨b, hb, eb⟩ := scan_max_mem r
    rw [ea, eb]; exact h b a hb ha

theorem stable_of_const (r : Nat → α) (c : α) (h : ∀ i, i < 10 → r i = c) :
    stable r = true := by
  rw [stable_iff]; intro i j hi hj
  rw [h i hi, h j hj, sub_self]; simp [threshold]

theorem unstable_of_gap (r : Nat → α) (i j : Nat) (hi : i < 10) (hj : j < 10)
    (h : threshold ≤ |r i - r j|) : stable r = false := by
  rw [← Bool.not_eq_true, stable_iff]
  intro hall
  have h1 := hall i j hi hj
  have h2 := hall j i hj hi
  have : |r i - r j| < threshold := abs_lt.mpr ⟨by linarith, h1⟩
  exact absurd h (not_le.mpr this)

end Stable

theorem rotate_range (j : Nat) :
    Multiset.map (fun i => (j + i) % 10) (Multiset.range 10) = Multiset.range 10 := by
  have key : ∀ k, k < 10 →
      Multiset.map (fun i => (k + i) % 10) (Multiset.range 10) = Multiset.range 10 := by
    decide
  conv_rhs => rw [← key (j % 10) (Nat.mod_lt _ (by decide))]
  exact Multiset.map_congr rfl (fun i _ => by omega)

section Window

variable [LinearOrderedField α]

theorem window_iterate (sensor garbage : Nat → α) (p : Nat) (tr : List (Event α)) (j : Nat) :
    window ((iter sensor)^[j] (primed sensor garbage p tr)).readings
      = lastSamples sensor (p + j) := by
  unfold window lastSamples windowSize
  conv_lhs => rw [← rotate_range j, Multiset.map_map]
  exact Multiset.map_congr rfl (fun i hi => by
    simpa using (ring_invariant sensor garbage p tr j).2.2 i (Multiset.mem_range.mp hi))

end Window

theorem emitted_primed (sensor garbage : Nat → α) (p : Nat) (tr : List (Event α)) :
    emitted (primed sensor garbage p tr).trace = emitted tr := by
  rw [primed_trace, emitted_append, emitted_primeEvents, List.append_nil]

theorem waitAfterPrintln_of_silent (l : List (Event α)) (h : emitted l = []) :
    waitAfterPrintln l = [] := by
  induction l with
  | nil => rfl
  | cons e t ih => cases e <;> simp_all [emitted, waitAfterPrintln]

/-- The wait after the last `println` of a trace. -/
theorem waitAfterPrintln_last (a c : List (Event α)) (v : α) (h : emitted c = []) :
    (waitAfterPrintln (a ++ Event.println v :: c)).getLast? = some (delayUntilSample c) := by
  induction a with
  | nil => simp [waitAfterPrintln, waitAfterPrintln_of_silent c h]
  | cons e t ih =>
    cases e with
    | println w =>
      simp only [List.cons_append, waitAfterPrintln]
      cases hw : waitAfterPrintln (t ++ Event.println v :: c) with
      | nil => rw [hw] at ih; simp at ih
      | cons x xs => rw [hw] at ih; rw [List.getLast?_cons_cons]; exact ih
    | sample w => simpa [waitAfterPrintln] using ih
    | delay ms => simpa [waitAfterPrintln] using ih

section Cycle

variable [LinearOrderedField α]

/-- A cycle whose first stable window is that of iteration `j`. -/
theorem cycle_first (sensor garbage : Nat → α) (p : Nat) (tr : List (Event α)) (n j : Nat)
    (hj : 1 ≤ j) (hjn : j ≤ n)
    (hu : ∀ i, 1 ≤ i → i < j →
      stable ((iter sensor)^[i] (primed sensor garbage p tr)).readings = false)
    (hs : stable ((iter sensor)^[j] (primed sensor garbage p tr)).readings = true) :
    stabilize sensor n (primed sensor garbage p tr)
        = (iter sensor)^[j] (primed sensor garbage p tr) ∧
      (stabilize sensor n (primed sensor garbage p tr)).equilibrium = true ∧
      (stabilize sensor n (primed sensor garbage p tr)).pos = p + 10 + j ∧
      emitted (stabilize sensor n (primed sensor garbage p tr)).trace
        = emitted tr ++ [sensor (p + 9 + j)] := by
  obtain ⟨e1, e2, _⟩ := stabilize_first sensor n j _ (primed_equilibrium ..) hj hjn hu hs
  refine ⟨e1, e2, by rw [e1, (ring_invariant sensor garbage p tr j).2.1], ?_⟩
  obtain ⟨k, rfl⟩ : ∃ k, j = k + 1 := ⟨j - 1, by omega⟩
  obtain ⟨u1, _, u3⟩ := stabilize_unstable sensor k _ (primed_equilibrium sensor garbage p tr)
    (fun i hi hik => hu i hi (by omega))
  rw [e1, Function.iterate_succ_apply']
  rw [Function.iterate_succ_apply'] at hs
  rw [emitted_iter_stable_val sensor _ (iterate_index_lt sensor _ (by rw [primed_index]; omega) k)
    hs, ← u1, u3, emitted_primed, u1, (ring_invariant sensor garbage p tr k).2.1]
  congr 3; omega

/-- A cycle none of whose first `n` windows is stable. -/
theorem cycle_unstable (sensor garbage : Nat → α) (p : Nat) (tr : List (Event α)) (n : Nat)
    (hu : ∀ i, 1 ≤ i → i ≤ n →
      stable ((iter sensor)^[i] (primed sensor garbage p tr)).readings = false) :
    (stabilize sensor n (primed sensor garbage p tr)).equilibrium = false ∧
      emitted (stabilize sensor n (primed sensor garbage p tr)).trace = emitted tr ∧
      loop sensor n garbage p tr = none := by
  obtain ⟨_, u2, u3⟩ := stabilize_unstable sensor n _ (primed_equilibrium sensor garbage p tr) hu
  exact ⟨u2, by rw [u3, emitted_primed], by simp [loop, u2]⟩

/-- The return of `loop()` for a cycle whose first stable window is that of
iteration `j`. -/
theorem loop_first (sensor garbage : Nat → α) (p : Nat) (tr : List (Event α)) (n j : Nat)
    (hj : 1 ≤ j) (hjn : j ≤ n)
    (hu : ∀ i, 1 ≤ i → i < j →
      stable ((iter sensor)^[i] (primed sensor garbage p tr)).readings = false)
    (hs : stable ((iter sensor)^[j] (primed sensor garbage p tr)).readings = true) :
    ∃ st, loop sensor n garbage p tr = some st ∧ st.pos = p + 10 + j ∧
      emitted st.trace = emitted tr ++ [sensor (p + 9 + j)] := by
  obtain ⟨_, e2, e3, e4⟩ := cycle_first sensor garbage p tr n j hj hjn hu hs
  refine ⟨delay 20000 (stabilize sensor n (primed sensor garbage p tr)),
    by simp only [loop, e2, if_true], e3, ?_⟩
  simp only [delay, emitted_append, e4]
  simp [emitted]

/-- Windows of a cycle whose sample 9 is off `c` by the threshold and whose
next ten samples are `c`. -/
theorem converge_windows (sensor garbage : Nat → α) (p : Nat) (tr : List (Event α)) (c : α)
    (hp : threshold ≤ |sensor (p + 9) - c|) (hc : ∀ i, i < 10 → sensor (p + 10 + i) = c) :
    (∀ j, 1 ≤ j → j < 10 →
      stable ((iter sensor)^[j] (primed sensor garbage p tr)).readings = false) ∧
    stable ((iter sensor)^[10] (primed sensor garbage p tr)).readings = true := by
  constructor
  · intro j hj hj9
    have h9 := (ring_invariant sensor garbage p tr j).2.2 (9 - j) (by omega)
    have h0 := (ring_invariant sensor garbage p tr j).2.2 (10 - j) (by omega)
    rw [show (j + (9 - j)) % 10 = 9 by omega, show p + j + (9 - j) = p + 9 by omega] at h9
    rw [show (j + (10 - j)) % 10 = 0 by omega, show p + j + (10 - j) = p + 10 + 0 by omega,
      hc 0 (by omega)] at h0
    exact unstable_of_gap _ 9 0 (by omega) (by omega) (by rw [h9, h0]; exact hp)
  · refine stable_of_const _ c (fun i hi => ?_)
    have := (ring_invariant sensor garbage p tr 10).2.2 i hi
    rw [show (10 + i) % 10 = i by omega, hc i hi] at this
    exact this

/-- Windows of a cycle whose first eleven samples are `v`. -/
theorem constant_window (sensor garbage : Nat → α) (p : Nat) (tr : List (Event α)) (v : α)
    (hv : ∀ i, i ≤ 10 → sensor (p + i) = v) (i : Nat) (hi : i < 10) :
    ((iter sensor)^[1] (primed sensor garbage p tr)).readings i = v := by
  have h9 := (ring_invariant sensor garbage p tr 1).2.2 ((i + 9) % 10) (by omega)
  rw [show (1 + (i + 9) % 10) % 10 = i by omega,
    show p + 1 + (i + 9) % 10 = p + (1 + (i + 9) % 10) by omega, hv _ (by omega)] at h9
  exact h9

/-- A cycle whose first eleven samples are `v`: the range of the first window
is 0 and `loop()` returns after one iteration, having printed `v`. -/
theorem constant_cycle (sensor garbage : Nat → α) (p : Nat) (tr : List (Event α)) (v : α)
    (hv : ∀ i, i ≤ 10 → sensor (p + i) = v) :
    (scan ((iter sensor)^[1] (primed sensor garbage p tr)).readings).2
        - (scan ((iter sensor)^[1] (primed sensor garbage p tr)).readings).1 = 0 ∧
    ∀ n, 1 ≤ n → ∃ st, loop sensor n garbage p tr = some st ∧ st.pos = p + 11 ∧
      emitted st.trace = emitted tr ++ [v] := by
  have hw := constant_window sensor garbage p tr v hv
  constructor
  · obtain ⟨a, ha, ea⟩ := scan_min_mem ((iter sensor)^[1] (primed sensor garbage p tr)).readings
    obtain ⟨b, hb, eb⟩ := scan_max_mem ((iter sensor)^[1] (primed sensor garbage p tr)).readings
    rw [ea, eb, hw a ha, hw b hb, sub_self]
  · intro n hn
    obtain ⟨st, h1, h2, h3⟩ := loop_first sensor garbage p tr n 1 le_rfl hn
      (fun i hi hi1 => by omega) (stable_of_const _ v hw)
    exact ⟨st, h1, h2, by rw [h3, show p + 9 + 1 = p + 10 by omega, hv 10 le_rfl]⟩

/-- A cycle whose ten priming samples are off `c` by the threshold and whose
next ten samples are `c`: no emission within 9 iterations, `c` printed at the
tenth. -/
theorem converging_cycle (sensor garbage : Nat → α) (p : Nat) (tr : List (Event α)) (c : α)
    (hp : ∀ i, i < 10 → threshold ≤ |sensor (p + i) - c|)
    (hc : ∀ i, i < 10 → sensor (p + 10 + i) = c) :
    (∀ n, n ≤ 9 →
      (stabilize sensor n (primed sensor garbage p tr)).equilibrium = false ∧
      emitted (stabilize sensor n (primed sensor garbage p tr)).trace = emitted tr ∧
      loop sensor n garbage p tr = none) ∧
    (∀ n, 10 ≤ n → ∃ st, loop sensor n garbage p tr = some st ∧ st.pos = p + 20 ∧
      emitted st.trace = emitted tr ++ [c]) := by
  obtain ⟨w1, w2⟩ := converge_windows sensor garbage p tr c (hp 9 (by omega)) hc
  constructor
  · intro n hn
    exact cycle_unstable sensor garbage p tr n (fun i hi hin => w1 i hi (by omega))
  · intro n hn
    obtain ⟨st, h1, h2, h3⟩ := loop_first sensor garbage p tr n 10 (by omega) hn
      (fun i hi hi1 => w1 i hi hi1) w2
    exact ⟨st, h1, h2, by rw [h3, show p + 9 + 10 = p + 10 + 9 by omega, hc 9 (by omega)]⟩

/-- The trace at the return of `loop()` and the first event of the next call. -/
theorem loop_exit_trace (sensor garbage garbage2 : Nat → α) (p : Nat) (tr : List (Event α))
    (n : Nat) (st : State α) (h : loop sensor n garbage p tr = some st) :
    (∃ pre v, st.trace = pre ++ [Event.println v, Event.delay 1000, Event.delay 20000]) ∧
    (∃ pre v rest, emitted rest = [] ∧ (primed sensor garbage2 st.pos st.trace).trace =
      pre ++ Event.println v ::
        (Event.delay 1000 :: Event.delay 20000 :: Event.sample (sensor st.pos) :: rest)) := by
  simp only [loop] at h
  split at h
  · next he =>
    obtain ⟨k, _, _, e2, e3⟩ := stabilize_exit sensor n _ (primed_equilibrium ..) he
    rw [iter_readings] at e2
    have ht := iter_trace_stable sensor _ e2
    rw [← e3] at ht
    have hst : st.trace = (stabilize sensor n (primed sensor garbage p tr)).trace
        ++ [Event.delay 20000] := by
      rw [← Option.some.inj h]; rfl
    rw [ht] at hst
    obtain ⟨T, s, v, hst'⟩ : ∃ T s v, st.trace = T ++
        [Event.sample s, Event.println v, Event.delay 1000, Event.delay 20000] :=
      ⟨_, _, _, by rw [hst, List.append_assoc]; rfl⟩
    refine ⟨⟨T ++ [Event.sample s], v, by rw [hst']; simp⟩, ?_⟩
    refine ⟨T ++ [Event.sample s], v,
      (Event.delay 1000 :: primeEvents (fun i => sensor (i + 1)) st.pos 9), ?_, ?_⟩
    · exact emitted_primeEvents (fun i => sensor (i + 1)) st.pos 9
    · rw [primed_trace, hst']
      simp [primeEvents, List.range_succ_eq_map, List.flatMap_cons, Nat.add_assoc]
  · exact absurd h (by simp)

end Cycle

/-! ## Independence from what is outside the cycle -/

theorem primed_sim (s1 s2 g1 g2 : Nat → α) (p1 p2 : Nat) (tr1 tr2 : List (Event α))
    (hs : ∀ k, s1 (p1 + k) = s2 (p2 + k)) :
    Sim p1 p2 tr1 tr2 (primed s1 g1 p1 tr1) (primed s2 g2 p2 tr2) := by
  refine ⟨by rw [primed_index, primed_index], by rw [primed_index]; omega,
    by rw [primed_equilibrium, primed_equilibrium],
    ⟨10, primed_pos .., primed_pos ..⟩, ⟨primeEvents s1 p1 10, primed_trace .., ?_⟩, ?_⟩
  · rw [primed_trace]; simp only [primeEvents, hs]
  · intro i hi
    rw [primed_readings, primed_readings, if_pos hi, if_pos hi, hs]

section Independence

variable [LinearOrderedField α]

theorem stable_congr (r1 r2 : Nat → α) (h : ∀ i, i < 10 → r1 i = r2 i) :
    stable r1 = stable r2 := by
  simp only [stable, scan_congr r1 r2 h]

theorem iter_sim (s1 s2 : Nat → α) (p1 p2 : Nat) (tr1 tr2 : List (Event α))
    (hs : ∀ k, s1 (p1 + k) = s2 (p2 + k)) (a b : State α) (h : Sim p1 p2 tr1 tr2 a b) :
    Sim p1 p2 tr1 tr2 (iter s1 a) (iter s2 b) := by
  obtain ⟨hi, hlt, he, ⟨c, hc1, hc2⟩, ⟨e, he1, he2⟩, hr⟩ := h
  have hv : s1 a.pos = s2 b.pos := by rw [hc1, hc2, hs]
  have hr' : ∀ i, i < 10 → Function.update a.readings a.index (s1 a.pos) i
      = Function.update b.readings b.index (s2 b.pos) i := by
    intro i hi10
    rw [Function.update_apply, Function.update_apply, hr i hi10, hv, hi]
  have hst := stable_congr _ _ hr'
  refine ⟨by rw [iter_index, iter_index, hi], by rw [iter_index]; omega,
    by rw [iter_equilibrium, iter_equilibrium, iter_readings, iter_readings, hst, he],
    ⟨c + 1, by rw [iter_pos, hc1]; omega, by rw [iter_pos, hc2]; omega⟩, ?_,
    by rw [iter_readings, iter_readings]; exact hr'⟩
  cases hs1 : stable (Function.update a.readings a.index (s1 a.pos)) with
  | true =>
    have hs2 := hst ▸ hs1
    rw [iter_trace_stable s1 a hs1, iter_trace_stable s2 b hs2, emit_slot _ _ _ hlt,
      emit_slot _ _ _ (hi ▸ hlt), he1, he2, hv]
    exact ⟨_, List.append_assoc .., List.append_assoc ..⟩
  | false =>
    have hs2 := hst ▸ hs1
    rw [iter_trace_unstable s1 a hs1, iter_trace_unstable s2 b hs2, he1, he2, hv]
    exact ⟨_, List.append_assoc .., List.append_assoc ..⟩

theorem stabilize_sim (s1 s2 : Nat → α) (p1 p2 : Nat) (tr1 tr2 : List (Event α))
    (hs : ∀ k, s1 (p1 + k) = s2 (p2 + k)) (n : Nat) (a b : State α)
    (h : Sim p1 p2 tr1 tr2 a b) :
    Sim p1 p2 tr1 tr2 (stabilize s1 n a) (stabilize s2 n b) := by
  induction n generalizing a b with
  | zero => exact h
  | succ n ih =>
    cases hq : a.equilibrium with
    | true =>
      rw [stabilize_of_equilibrium _ _ _ hq, stabilize_of_equilibrium _ _ _ (h.2.2.1 ▸ hq)]
      exact h
    | false =>
      rw [stabilize_succ_of_not _ _ _ hq, stabilize_succ_of_not _ _ _ (h.2.2.1 ▸ hq)]
      exact ih _ _ (iter_sim s1 s2 p1 p2 tr1 tr2 hs a b h)

end Independence

/-! ## The conversion over the reals -/

theorem ratio_512 : resistance (512 : Int) / 10000 = (511 / 512 : ℝ) := by
  simp only [resistance]; norm_num

/-- A gap of 1/30 between two logarithms in `[0, 1]` moves the temperature by
at least 0.2. -/
theorem kelvin_gap (La Lb : ℝ) (hb : 0 ≤ Lb) (hab : Lb + 1 / 30 ≤ La) (ha : La ≤ 1) :
    2 / 10 ≤ 1 / (Lb / 3975 + 1 / (29815 / 100)) - 1 / (La / 3975 + 1 / (29815 / 100)) := by
  have hDb : 0 < Lb / 3975 + 1 / (29815 / 100) := by positivity
  have hDa : 0 < La / 3975 + 1 / (29815 / 100) := by
    have : 0 ≤ La := by linarith
    positivity
  have hU : La / 3975 + 1 / (29815 / 100) ≤ 4 / 1000 := by
    have : La / 3975 ≤ 1 / 3975 := by gcongr
    norm_num at this ⊢; linarith
  have hU' : Lb / 3975 + 1 / (29815 / 100) ≤ 4 / 1000 := by
    have : Lb / 3975 ≤ La / 3975 := by gcongr; linarith
    linarith
  have hprod : (Lb / 3975 + 1 / (29815 / 100)) * (La / 3975 + 1 / (29815 / 100))
      ≤ 4 / 1000 * (4 / 1000) := mul_le_mul hU' hU hDa.le (by norm_num)
  have hdiff : 1 / 30 / 3975 ≤ La / 3975 - Lb / 3975 := by
    rw [← sub_div]; gcongr; linarith
  rw [div_sub_div _ _ hDb.ne' hDa.ne', le_div_iff₀ (mul_pos hDb hDa)]
  norm_num at hprod hdiff ⊢
  linarith

/-- The logarithm grows by at least `1 - y / x` from `y` to `x`. -/
theorem log_gap (x y : ℝ) (hy : 0 < y) (hx : 0 < x) :
    Real.log y + (1 - y / x) ≤ Real.log x := by
  have h := Real.one_sub_inv_le_log_of_pos (div_pos hx hy)
  rw [Real.log_div hx.ne' hy.ne', inv_div] at h
  linarith

theorem temp_gap (x y : ℝ) (hy : 1 ≤ y) (hyx : y ≤ x) (hx : x ≤ 2) (hgap : 1 / 30 ≤ 1 - y / x) :
    2 / 10 ≤ (1 / (Real.log y / 3975 + 1 / (29815 / 100)) - 27315 / 100)
      - (1 / (Real.log x / 3975 + 1 / (29815 / 100)) - 27315 / 100) := by
  have hy0 : 0 < y := by linarith
  have hx0 : 0 < x := by linarith
  have h1 : 0 ≤ Real.log y := Real.log_nonneg hy
  have h2 : Real.log x ≤ 1 := by
    have := Real.log_le_sub_one_of_pos hx0; linarith
  have h3 := log_gap x y hy0 hx0
  have := kelvin_gap (Real.log x) (Real.log y) h1 (by linarith) h2
  linarith

theorem gap_400_410 : threshold ≤ readTemperatureReal 410 - readTemperatureReal 400 := by
  have e1 : (resistance (410 : Int) : ℝ) / 10000 = 613 / 410 := by
    simp only [resistance]; norm_num
  have e2 : (resistance (400 : Int) : ℝ) / 10000 = 623 / 400 := by
    simp only [resistance]; norm_num
  simp only [readTemperatureReal, readTemperature, e1, e2, B, threshold]
  push_cast
  exact temp_gap (623 / 400) (613 / 410) (by norm_num) (by norm_num) (by norm_num) (by norm_num)

theorem gap_410_420 : threshold ≤ readTemperatureReal 420 - readTemperatureReal 410 := by
  have e1 : (resistance (410 : Int) : ℝ) / 10000 = 613 / 410 := by
    simp only [resistance]; norm_num
  have e2 : (resistance (420 : Int) : ℝ) / 10000 = 603 / 420 := by
    simp only [resistance]; norm_num
  simp only [readTemperatureReal, readTemperature, e1, e2, B, threshold]
  push_cast
  exact temp_gap (613 / 410) (603 / 420) (by norm_num) (by norm_num) (by norm_num) (by norm_num)

end Basics

/-! ## The conversion at raw reading 0 -/

theorem readTemperatureIEEE_zero {α : Type} [LinearOrderedField α] (logf : α → α) :
    resistanceIEEE (0 : Int) = (FVal.pinf : FVal α) ∧
    readTemperatureIEEE logf 0 = FVal.fin (-(27315 / 100)) := by
  have h : resistanceIEEE (0 : Int) = (FVal.pinf : FVal α) := by
    simp [resistanceIEEE, FVal.mul, FVal.div, FVal.scaleInf]
  refine ⟨h, ?_⟩
  simp [readTemperatureIEEE, h, FVal.div, FVal.scaleInf, FVal.log, FVal.add, FVal.sub,
    FVal.neg, B]

/-! ## The conversion with special values on `(0, 1023]` -/

/-- A value other than NaN is equal to itself for `==`. -/
theorem FVal.feq_self {α : Type} [DecidableEq α] (x : FVal α) (h : x ≠ FVal.nan) :
    FVal.feq x x = true := by
  cases x with
  | fin v => simp [FVal.feq]
  | pinf => rfl
  | ninf => rfl
  | nan => exact absurd rfl h

theorem FVal.div_fin {α : Type} [LinearOrderedField α] (x y : α) (hy : y ≠ 0) :
    FVal.div (FVal.fin x) (FVal.fin y) = FVal.fin (x / y) := by
  simp [FVal.div, hy]

theorem FVal.div_fin_zero {α : Type} [LinearOrderedField α] (x : α) (hx : 0 < x) :
    FVal.div (FVal.fin x) (FVal.fin 0) = FVal.pinf := by
  simp [FVal.div, FVal.scaleInf, hx]

theorem FVal.log_fin {α : Type} [LinearOrderedField α] (logf : α → α) (x : α) (hx : 0 < x) :
    FVal.log logf (FVal.fin x) = FVal.fin (logf x) := by
  simp [FVal.log, hx]

/-- On `1..1022` no special value arises before the last division: the result
is the temperature of the formula, or plus infinity if the denominator is 0. -/
theorem readTemperatureIEEE_interior {α : Type} [LinearOrderedField α] (logf : α → α)
    (r : Int) (h1 : 1 ≤ r) (h2 : r ≤ 1022) :
    readTemperatureIEEE logf r =
      if logf (resistance r / 10000) / (B : α) + 1 / (29815 / 100) = 0 then FVal.pinf
      else FVal.fin (readTemperature logf r) := by
  have hr1 : (1 : α) ≤ (r : α) := by exact_mod_cast h1
  have hr2 : (r : α) ≤ 1022 := by exact_mod_cast h2
  have hr0 : (r : α) ≠ 0 := by intro h; rw [h] at hr1; norm_num at hr1
  have hres : resistanceIEEE r = (FVal.fin (resistance r) : FVal α) := by
    simp only [resistanceIEEE, resistance, FVal.mul]
    exact FVal.div_fin _ _ hr0
  have hpos : (0 : α) < resistance r / 10000 := by
    have : (0 : α) < resistance r := by
      simp only [resistance]; push_cast
      exact div_pos (by nlinarith) (by linarith)
    positivity
  have hB : ((B : Int) : α) ≠ 0 := by simp [B]
  unfold readTemperatureIEEE
  rw [hres, FVal.div_fin _ _ (by norm_num), FVal.log_fin logf _ hpos, FVal.div_fin _ _ hB,
    FVal.div_fin _ _ (by norm_num)]
  by_cases hD : logf (resistance r / 10000) / (B : α) + 1 / (29815 / 100) = 0
  · rw [if_pos hD]
    simp only [FVal.add, hD]
    rw [FVal.div_fin_zero _ one_pos]
    rfl
  · rw [if_neg hD]
    simp only [FVal.add]
    rw [FVal.div_fin _ _ hD]
    simp only [FVal.sub, FVal.neg, FVal.add, readTemperature, sub_eq_add_neg]

/-- At raw reading 1023 the resistance is 0, its logarithm is minus infinity,
the reciprocal is 0 and the result is -273.15. -/
theorem readTemperatureIEEE_top {α : Type} [LinearOrderedField α] (logf : α → α) :
    readTemperatureIEEE logf 1023 = FVal.fin (-(27315 / 100)) := by
  have h : resistanceIEEE (1023 : Int) = (FVal.fin 0 : FVal α) := by
    simp [resistanceIEEE, FVal.mul, FVal.div]
  simp [readTemperatureIEEE, h, FVal.div, FVal.scaleInf, FVal.log, FVal.add, FVal.sub,
    FVal.neg, B]

/-- On `(0, 1023]` the result of the conversion is not NaN. -/
theorem readTemperatureIEEE_ne_nan {α : Type} [LinearOrderedField α] (logf : α → α)
    (r : Int) (h0 : 0 < r) (h1 : r ≤ 1023) : readTemperatureIEEE logf r ≠ FVal.nan := by
  rcases (show r ≤ 1022 ∨ r = 1023 by omega) with h | h
  · rw [readTemperatureIEEE_interior logf r (by omega) h]
    split <;> simp
  · rw [h, readTemperatureIEEE_top]; simp

/-! ## The claims -/

/-- C1: the window holds exactly the last 10 samples.  With `s_k` the sample
number `p + k` of the sensor (`p` the sensor position at the start of the
cycle): right after priming the multiset of the 10 slots of `readings` is
`{s_0, ..., s_9}`; after stabilization iteration `j` (which writes `s_k` for
`k = j + 9`) it is `{s_j, ..., s_(j+9)}`, that is `{s_(k-9), ..., s_k}`; and
in every state the `while` loop reaches, whatever the iteration cap, it is the
multiset of the last 10 samples acquired. -/
theorem C1_window_holds_last_ten {α : Type} [LinearOrderedField α]
    (sensor garbage : Nat → α) (p : Nat) (tr : List (Event α)) :
    window (primed sensor garbage p tr).readings = lastSamples sensor p ∧
    (∀ j, window ((iter sensor)^[j] (primed sensor garbage p tr)).readings
        = lastSamples sensor (p + j)) ∧
    (∀ n, window (stabilize sensor n (primed sensor garbage p tr)).readings
        = lastSamples sensor ((stabilize sensor n (primed sensor garbage p tr)).pos - 10)) := by
  refine ⟨window_iterate sensor garbage p tr 0, window_iterate sensor garbage p tr, fun n => ?_⟩
  obtain ⟨j, _, e⟩ := stabilize_eq_iterate sensor n (primed sensor garbage p tr)
  rw [e, window_iterate, (ring_invariant sensor garbage p tr j).2.1]
  congr 1; omega

/-- C2: when the stability test holds in an iteration started with `index` in
`0..9`, the value printed, `readings[index == 0 ? 9 : index - 1]` read after
`index` has been advanced, is the sample written by that iteration: the
iteration appends to the trace that sample, its `println`, and the delay. -/
theorem C2_emitted_is_inserted_sample {α : Type} [LinearOrderedField α]
    (sensor : Nat → α) (st : State α) (hi : st.index < 10)
    (hs : stable (Function.update st.readings st.index (sensor st.pos)) = true) :
    (iter sensor st).readings
        (if (iter sensor st).index = 0 then windowSize - 1 else (iter sensor st).index - 1)
      = sensor st.pos ∧
    (iter sensor st).trace = st.trace ++
      [Event.sample (sensor st.pos), Event.println (sensor st.pos), Event.delay 1000] := by
  constructor
  · rw [iter_readings, iter_index]; exact emit_slot _ _ _ hi
  · rw [iter_trace_stable sensor st hs, emit_slot _ _ _ hi]

/-- C2, at a window holding 25 in slot 0 and 25.1 elsewhere, `index = 3`, new
sample 25.05: the printed value is 25.05, neither the minimum 25 nor the
maximum 25.1. -/
theorem C2_emitted_is_inserted_sample_witness :
    (iter (fun _ => (501 / 20 : ℚ))
        ⟨fun i => if i = 0 then 25 else 251 / 10, 3, false, 0, []⟩).trace
      = [Event.sample (501 / 20), Event.println (501 / 20), Event.delay 1000] :=
  (C2_emitted_is_inserted_sample (fun _ => (501 / 20 : ℚ))
    ⟨fun i => if i = 0 then 25 else 251 / 10, 3, false, 0, []⟩ (by decide)
    (by simp [stable, scan, scanStep, threshold, windowSize, List.range', Function.update_apply]
        norm_num)).2

/-- C3: from any state in which the `while` loop is entered
(`equilibrium = false`), run with any iteration cap `n`: the loop prints at
most one value; if iteration `j <= n` is the first whose window passes the
test `max - min < 0.2`, the loop ends there (the state is that after `j` runs
of the body, `equilibrium = true`) having printed exactly one value; and if the
window fails the test at every one of the `n` iterations, nothing is printed,
`equilibrium` is still `false` and all `n` iterations have run. -/
theorem C3_one_emission_per_settling {α : Type} [LinearOrderedField α]
    (sensor : Nat → α) (st : State α) (n : Nat) (h : st.equilibrium = false) :
    (∃ l, emitted (stabilize sensor n st).trace = emitted st.trace ++ l ∧ l.length ≤ 1) ∧
    (∀ j, 1 ≤ j → j ≤ n →
      (∀ i, 1 ≤ i → i < j → stable ((iter sensor)^[i] st).readings = false) →
      stable ((iter sensor)^[j] st).readings = true →
        stabilize sensor n st = (iter sensor)^[j] st ∧
        (stabilize sensor n st).equilibrium = true ∧
        (stabilize sensor n st).pos = st.pos + j ∧
        ∃ v, emitted (stabilize sensor n st).trace = emitted st.trace ++ [v]) ∧
    ((∀ i, 1 ≤ i → i ≤ n → stable ((iter sensor)^[i] st).readings = false) →
        stabilize sensor n st = (iter sensor)^[n] st ∧
        (stabilize sensor n st).equilibrium = false ∧
        emitted (stabilize sensor n st).trace = emitted st.trace) := by
  refine ⟨?_, fun j hj hjn hu hs => ?_, stabilize_unstable sensor n st h⟩
  · obtain ⟨l, h1, h2⟩ := stabilize_emitted sensor n st h
    exact ⟨l, h1, by rw [h2]; split <;> omega⟩
  · obtain ⟨e1, e2, e3⟩ := stabilize_first sensor n j st h hj hjn hu hs
    exact ⟨e1, e2, by rw [e1, iterate_pos], e3⟩

/-- C3, over the rationals, from a state whose window holds 25 everywhere,
with all samples 25 and cap 5: the first window is stable and the loop ends
after one iteration with one value printed. -/
theorem C3_one_emission_per_settling_witness :
    stabilize (fun _ => (25 : ℚ)) 5 ⟨fun _ => 25, 0, false, 10, []⟩
        = (iter (fun _ => (25 : ℚ)))^[1] ⟨fun _ => 25, 0, false, 10, []⟩ ∧
      (stabilize (fun _ => (25 : ℚ)) 5 ⟨fun _ => 25, 0, false, 10, []⟩).equilibrium = true ∧
      (stabilize (fun _ => (25 : ℚ)) 5 ⟨fun _ => 25, 0, false, 10, []⟩).pos = 10 + 1 ∧
      ∃ v, emitted (stabilize (fun _ => (25 : ℚ)) 5 ⟨fun _ => 25, 0, false, 10, []⟩).trace
        = emitted [] ++ [v] :=
  (C3_one_emission_per_settling (fun _ => (25 : ℚ)) ⟨fun _ => 25, 0, false, 10, []⟩ 5 rfl).2.1
    1 (by decide) (by decide) (fun i h1 h2 => absurd h1 (by omega))
    (by simp [iter_readings, stable, scan, scanStep, threshold, windowSize, List.range',
      Function.update_apply])

/-- C4: over the reals, for every raw reading `r` (so for `0 < r < 1023`),
`readTemperature` returns
`1 / (ln(((1023 - r) * 10000 / r) / 10000) / 3975 + 1/298.15) - 273.15`; for
`r = 512` the resistance is `5110000/512 = 9980.46875` and the temperature is
strictly between 25.0 and 25.1. -/
theorem C4_conversion_formula (r : Int) :
    readTemperatureReal r =
      1 / (Real.log (((1023 - r : ℝ) * 10000 / r) / 10000) / 3975 + 1 / 298.15) - 273.15 ∧
    (resistance (512 : Int) : ℝ) = 5110000 / 512 ∧ (5110000 / 512 : ℝ) = 9980.46875 ∧
    25.0 < readTemperatureReal 512 ∧ readTemperatureReal 512 < 25.1 := by
  have hL1 : Real.log (511 / 512) < 0 := Real.log_neg (by norm_num) (by norm_num)
  have hL2 : - (1 / 511) ≤ Real.log (511 / 512) := by
    have := Real.one_sub_inv_le_log_of_pos (show (0:ℝ) < 511 / 512 by norm_num)
    norm_num at this ⊢; linarith
  have hD : 0 < Real.log (511 / 512) / 3975 + 1 / (29815 / 100) := by linarith
  refine ⟨?_, ?_, by norm_num, ?_, ?_⟩
  · simp only [readTemperatureReal, readTemperature, resistance, B]; push_cast; norm_num
  · simp only [resistance]; norm_num
  · simp only [readTemperatureReal, readTemperature, ratio_512, B]; push_cast
    have : (29815 / 100 : ℝ) < 1 / (Real.log (511 / 512) / 3975 + 1 / (29815 / 100)) := by
      rw [lt_one_div (by norm_num) hD]; linarith
    norm_num at this ⊢; linarith
  · simp only [readTemperatureReal, readTemperature, ratio_512, B]; push_cast
    have : 1 / (Real.log (511 / 512) / 3975 + 1 / (29815 / 100)) < (29825 / 100 : ℝ) := by
      rw [one_div_lt hD (by norm_num)]; norm_num; linarith
    norm_num at this ⊢; linarith

/-- C5: the converging scenario.  Over the reals the samples of raw 400 and
of raw 420 are at least 0.2 away from the sample of raw 410; for a cycle whose
raw readings are `rawConverging` (ten priming readings alternating 400 and
420, then 410), run from sensor position 0 with any stack garbage and any
earlier trace, the `while` loop capped at `n <= 9` iterations has not ended
and has printed nothing, and with any cap `n >= 10` `loop()` returns having
read 20 samples (10 iterations) and having printed exactly the conversion of
410.  In general, over any ordered field, if the ten priming samples are at
least 0.2 away from `c` and the next ten samples are `c`, the same holds with
`c` printed at the 10th iteration. -/
theorem C5_converging_scenario :
    (threshold ≤ readTemperatureReal 410 - readTemperatureReal 400 ∧
      threshold ≤ readTemperatureReal 420 - readTemperatureReal 410) ∧
    (∀ (garbage : Nat → ℝ) (tr : List (Event ℝ)),
      (∀ n, n ≤ 9 →
        (stabilize (fun k => readTemperatureReal (rawConverging k)) n
          (primed (fun k => readTemperatureReal (rawConverging k)) garbage 0 tr)).equilibrium
            = false ∧
        emitted (stabilize (fun k => readTemperatureReal (rawConverging k)) n
          (primed (fun k => readTemperatureReal (rawConverging k)) garbage 0 tr)).trace
            = emitted tr ∧
        loop (fun k => readTemperatureReal (rawConverging k)) n garbage 0 tr = none) ∧
      (∀ n, 10 ≤ n → ∃ st,
        loop (fun k => readTemperatureReal (rawConverging k)) n garbage 0 tr = some st ∧
        st.pos = 20 ∧ emitted st.trace = emitted tr ++ [readTemperatureReal 410])) ∧
    (∀ (α : Type) [LinearOrderedField α] (sensor garbage : Nat → α) (p : Nat)
        (tr : List (Event α)) (c : α),
      (∀ i, i < 10 → threshold ≤ |sensor (p + i) - c|) →
      (∀ i, i < 10 → sensor (p + 10 + i) = c) →
      (∀ n, n ≤ 9 →
        (stabilize sensor n (primed sensor garbage p tr)).equilibrium = false ∧
        emitted (stabilize sensor n (primed sensor garbage p tr)).trace = emitted tr ∧
        loop sensor n garbage p tr = none) ∧
      (∀ n, 10 ≤ n → ∃ st, loop sensor n garbage p tr = some st ∧ st.pos = p + 20 ∧
        emitted st.trace = emitted tr ++ [c])) := by
  refine ⟨⟨gap_400_410, gap_410_420⟩, fun garbage tr => ?_,
    fun α _ sensor garbage p tr c hp hc => converging_cycle sensor garbage p tr c hp hc⟩
  have h := converging_cycle (fun k => readTemperatureReal (rawConverging k)) garbage 0 tr
    (readTemperatureReal 410)
    (fun i hi => by
      have e : rawConverging (0 + i) = 400 ∨ rawConverging (0 + i) = 420 := by
        simp only [rawConverging, Nat.zero_add, if_pos hi]; split <;> simp
      rcases e with e | e
      · simp only [e]; rw [abs_sub_comm]; exact gap_400_410.trans (le_abs_self _)
      · simp only [e]; exact gap_410_420.trans (le_abs_self _))
    (fun i hi => by simp [rawConverging])
  simpa using h

/-- C5, general part, over the rationals: ten priming samples 0, then ten
samples 1, cap 10. -/
theorem C5_converging_scenario_witness :
    ∃ st, loop (fun k => if k < 10 then (0 : ℚ) else 1) 10 (fun _ => 0) 0 [] = some st ∧
      st.pos = 0 + 20 ∧ emitted st.trace = emitted [] ++ [1] :=
  (C5_converging_scenario.2.2 ℚ (fun k => if k < 10 then (0 : ℚ) else 1) (fun _ => 0) 0 [] 1
    (fun i hi => by simp [hi, threshold]; norm_num)
    (fun i _ => by simp)).2 10 le_rfl

/-- C6: the constant-signal scenario.  For a cycle whose raw readings are all
512, over the reals, and in general for a cycle whose first eleven samples
are one value `v`, over any ordered field: at the first stabilization
iteration the scan gives `maxTemp - minTemp = 0`, and with any cap `n >= 1`
`loop()` returns having read exactly 11 samples and having printed exactly one
value, the conversion of 512 (resp. `v`). -/
theorem C6_constant_signal :
    (∀ (garbage : Nat → ℝ) (tr : List (Event ℝ)),
      (scan ((iter (fun _ => readTemperatureReal 512))^[1]
          (primed (fun _ => readTemperatureReal 512) garbage 0 tr)).readings).2
        - (scan ((iter (fun _ => readTemperatureReal 512))^[1]
          (primed (fun _ => readTemperatureReal 512) garbage 0 tr)).readings).1 = 0 ∧
      ∀ n, 1 ≤ n → ∃ st, loop (fun _ => readTemperatureReal 512) n garbage 0 tr = some st ∧
        st.pos = 11 ∧ emitted st.trace = emitted tr ++ [readTemperatureReal 512]) ∧
    (∀ (α : Type) [LinearOrderedField α] (sensor garbage : Nat → α) (p : Nat)
        (tr : List (Event α)) (v : α),
      (∀ i, i ≤ 10 → sensor (p + i) = v) →
      (scan ((iter sensor)^[1] (primed sensor garbage p tr)).readings).2
        - (scan ((iter sensor)^[1] (primed sensor garbage p tr)).readings).1 = 0 ∧
      ∀ n, 1 ≤ n → ∃ st, loop sensor n garbage p tr = some st ∧ st.pos = p + 11 ∧
        emitted st.trace = emitted tr ++ [v]) := by
  refine ⟨fun garbage tr => ?_,
    fun α _ sensor garbage p tr v hv => constant_cycle sensor garbage p tr v hv⟩
  simpa using constant_cycle (fun _ => readTemperatureReal 512) garbage 0 tr
    (readTemperatureReal 512) (fun _ _ => rfl)

/-- C6, general part, over the rationals: all samples 25, cap 1. -/
theorem C6_constant_signal_witness :
    ∃ st, loop (fun _ => (25 : ℚ)) 1 (fun _ => 0) 0 [] = some st ∧ st.pos = 0 + 11 ∧
      emitted st.trace = emitted [] ++ [25] :=
  (C6_constant_signal.2 ℚ (fun _ => (25 : ℚ)) (fun _ => 0) 0 [] 25 (fun _ _ => rfl)).2 1 le_rfl

/-- C7 as stated fails: for the cycle over the rationals whose samples are
all 25 (ten priming samples, one iteration), the trace of `loop()` ends with
`println 25`, `delay 1000`, `delay 20000`, and the wait between the `println`
and the first `analogRead` of the next call of `loop()` is 21000 ms, not
20000 ms. -/
theorem C7_wait_is_not_20000 :
    ∃ st, loop (fun _ => (25 : ℚ)) 1 (fun _ => 0) 0 [] = some st ∧
      st.trace = [Event.sample 25, Event.delay 1000, Event.sample 25, Event.delay 1000,
        Event.sample 25, Event.delay 1000, Event.sample 25, Event.delay 1000,
        Event.sample 25, Event.delay 1000, Event.sample 25, Event.delay 1000,
        Event.sample 25, Event.delay 1000, Event.sample 25, Event.delay 1000,
        Event.sample 25, Event.delay 1000, Event.sample 25, Event.delay 1000,
        Event.sample 25, Event.println 25, Event.delay 1000, Event.delay 20000] ∧
      (waitAfterPrintln (primed (fun _ => (25 : ℚ)) (fun _ => 0) st.pos st.trace).trace).getLast?
        = some 21000 ∧
      (waitAfterPrintln (primed (fun _ => (25 : ℚ)) (fun _ => 0) st.pos st.trace).trace).getLast?
        ≠ some 20000 := by
  obtain ⟨st, h, _⟩ := (constant_cycle (fun _ => (25 : ℚ)) (fun _ => 0) 0 [] 25
    (fun _ _ => rfl)).2 1 le_rfl
  obtain ⟨_, pre, v, rest, hr, ht⟩ := loop_exit_trace (fun _ => (25 : ℚ)) (fun _ => 0)
    (fun _ => 0) 0 [] 1 st h
  have hw : (waitAfterPrintln (primed (fun _ => (25 : ℚ)) (fun _ => 0) st.pos
      st.trace).trace).getLast? = some 21000 := by
    rw [ht, waitAfterPrintln_last _ _ _ (by simpa [emitted] using hr)]
    simp [delayUntilSample]
  have htr : (loop (fun _ => (25 : ℚ)) 1 (fun _ => 0) 0 []).map (fun st => st.trace) =
      some [Event.sample 25, Event.delay 1000, Event.sample 25, Event.delay 1000,
        Event.sample 25, Event.delay 1000, Event.sample 25, Event.delay 1000,
        Event.sample 25, Event.delay 1000, Event.sample 25, Event.delay 1000,
        Event.sample 25, Event.delay 1000, Event.sample 25, Event.delay 1000,
        Event.sample 25, Event.delay 1000, Event.sample 25, Event.delay 1000,
        Event.sample 25, Event.println 25, Event.delay 1000, Event.delay 20000] := by
    simp [loop, stabilize, primed, prime, enter, primeStep, iter, readSample, delay, stable,
      scan, scanStep, threshold, windowSize, List.range_succ, List.range',
      Function.update_apply]
  rw [h] at htr
  exact ⟨st, h, Option.some.inj htr, hw, by rw [hw]; decide⟩

/-- C7, amended: in every cycle of `loop()` that emits, the trace ends with the
`println`, the 1000 ms delay that closes the iteration and the 20000 ms delay
after the `while` loop, and the next call of `loop()` starts with an
`analogRead`: the total delay between the `println` of the stabilized value
and the first `analogRead` of the next cycle is 21000 ms. -/
theorem C7_post_emission_wait {α : Type} [LinearOrderedField α]
    (sensor garbage garbage2 : Nat → α) (p : Nat) (tr : List (Event α)) (n : Nat)
    (st : State α) (h : loop sensor n garbage p tr = some st) :
    (∃ pre v, st.trace = pre ++ [Event.println v, Event.delay 1000, Event.delay 20000]) ∧
    (∃ pre v rest, (primed sensor garbage2 st.pos st.trace).trace =
      pre ++ Event.println v ::
        (Event.delay 1000 :: Event.delay 20000 :: Event.sample (sensor st.pos) :: rest)) ∧
    (waitAfterPrintln (primed sensor garbage2 st.pos st.trace).trace).getLast? = some 21000 := by
  obtain ⟨h1, pre, v, rest, hr, ht⟩ := loop_exit_trace sensor garbage garbage2 p tr n st h
  refine ⟨h1, ⟨pre, v, rest, ht⟩, ?_⟩
  rw [ht, waitAfterPrintln_last _ _ _ (by simpa [emitted] using hr)]
  simp [delayUntilSample]

/-- C7, amended, at the cycle over the rationals whose samples are all 25. -/
theorem C7_post_emission_wait_witness :
    (waitAfterPrintln (primed (fun _ => (25 : ℚ)) (fun _ => 0)
      (delay 20000 (stabilize (fun _ => (25 : ℚ)) 1
        (primed (fun _ => (25 : ℚ)) (fun _ => 0) 0 []))).pos
      (delay 20000 (stabilize (fun _ => (25 : ℚ)) 1
        (primed (fun _ => (25 : ℚ)) (fun _ => 0) 0 []))).trace).trace).getLast? = some 21000 :=
  (C7_post_emission_wait (fun _ => (25 : ℚ)) (fun _ => 0) (fun _ => 0) 0 [] 1
    (delay 20000 (stabilize (fun _ => (25 : ℚ)) 1 (primed (fun _ => (25 : ℚ)) (fun _ => 0) 0 [])))
    (if_pos (cycle_first (fun _ => (25 : ℚ)) (fun _ => 0) 0 [] 1 1 le_rfl le_rfl
      (fun i hi hi1 => absurd hi (by omega))
      (stable_of_const _ 25 (constant_window (fun _ => (25 : ℚ)) (fun _ => 0) 0 [] 25
        (fun _ _ => rfl)))).2.1)).2.2

/-- C8 as stated fails: with the special values of IEEE 754, at raw reading 0
the resistance is plus infinity, but `readTemperature` returns a finite
number, not an infinity and not NaN. -/
theorem C8_raw_zero_result_is_finite :
    resistanceIEEE (0 : Int) = (FVal.pinf : FVal ℝ) ∧
    (readTemperatureIEEE Real.log 0).isFinite = true ∧
    readTemperatureIEEE Real.log 0 ≠ FVal.pinf ∧
    readTemperatureIEEE Real.log 0 ≠ FVal.ninf ∧
    readTemperatureIEEE Real.log 0 ≠ FVal.nan := by
  obtain ⟨h1, h2⟩ := readTemperatureIEEE_zero Real.log
  rw [h2]
  exact ⟨h1, rfl, by simp, by simp, by simp⟩

/-- C8, amended: with the special values of IEEE 754 (division by zero without
trap), at raw reading 0 the resistance `(float)1023*10000/0` is plus infinity,
its logarithm is plus infinity, the reciprocal is 0, and `readTemperature`
returns the finite value -273.15; that value is stored in the window and can
be forwarded to the output: a cycle whose samples are all -273.15 prints
-273.15 after its first iteration. -/
theorem C8_raw_zero_gives_absolute_zero {α : Type} [LinearOrderedField α] (logf : α → α)
    (garbage : Nat → α) (p : Nat) (tr : List (Event α)) :
    resistanceIEEE (0 : Int) = (FVal.pinf : FVal α) ∧
    readTemperatureIEEE logf 0 = FVal.fin (-(27315 / 100)) ∧
    (readTemperatureIEEE logf 0).isFinite = true ∧
    (∀ i, i < 10 →
      ((iter (fun _ => (-(27315 / 100) : α)))^[1]
        (primed (fun _ => (-(27315 / 100) : α)) garbage p tr)).readings i = -(27315 / 100)) ∧
    (∀ n, 1 ≤ n → ∃ st, loop (fun _ => (-(27315 / 100) : α)) n garbage p tr = some st ∧
      emitted st.trace = emitted tr ++ [-(27315 / 100)]) := by
  obtain ⟨h1, h2⟩ := readTemperatureIEEE_zero logf
  refine ⟨h1, h2, by rw [h2]; rfl,
    constant_window _ garbage p tr _ (fun _ _ => rfl), fun n hn => ?_⟩
  obtain ⟨st, e1, _, e3⟩ := (constant_cycle (fun _ => (-(27315 / 100) : α)) garbage p tr _
    (fun _ _ => rfl)).2 n hn
  exact ⟨st, e1, e3⟩

/-- C9: no window state crosses cycles.  `loop()` starts with `index = 0` and
`equilibrium = false`; priming writes all 10 slots of `readings` with samples
of this cycle before the `while` loop starts; the scan reads the slots `0..9`
only; and two cycles that read the same samples, whatever the stack garbage
in `readings`, the earlier traces and the sensor positions they start from,
go through the same events and reach the same `index`, `equilibrium` and
window, for every iteration cap, and `loop()` returns in both or in none. -/
theorem C9_no_state_crosses_cycles {α : Type} [LinearOrderedField α]
    (sensor1 sensor2 garbage1 garbage2 : Nat → α) (p1 p2 : Nat) (tr1 tr2 : List (Event α))
    (n : Nat) (hs : ∀ k, sensor1 (p1 + k) = sensor2 (p2 + k)) :
    ((enter garbage1 p1 tr1).index = 0 ∧ (enter garbage1 p1 tr1).equilibrium = false) ∧
    (∀ i, i < 10 → (primed sensor1 garbage1 p1 tr1).readings i = sensor1 (p1 + i)) ∧
    (∀ r1 r2 : Nat → α, (∀ i, i < 10 → r1 i = r2 i) → scan r1 = scan r2) ∧
    Sim p1 p2 tr1 tr2 (stabilize sensor1 n (primed sensor1 garbage1 p1 tr1))
      (stabilize sensor2 n (primed sensor2 garbage2 p2 tr2)) ∧
    ((loop sensor1 n garbage1 p1 tr1 = none ∧ loop sensor2 n garbage2 p2 tr2 = none) ∨
      ∃ st1 st2 e, loop sensor1 n garbage1 p1 tr1 = some st1 ∧
        loop sensor2 n garbage2 p2 tr2 = some st2 ∧
        st1.trace = tr1 ++ e ∧ st2.trace = tr2 ++ e) := by
  have hsim := stabilize_sim sensor1 sensor2 p1 p2 tr1 tr2 hs n _ _
    (primed_sim sensor1 sensor2 garbage1 garbage2 p1 p2 tr1 tr2 hs)
  refine ⟨⟨rfl, rfl⟩, fun i hi => by rw [primed_readings, if_pos hi], scan_congr, hsim, ?_⟩
  obtain ⟨_, _, he, _, ⟨e, e1, e2⟩, _⟩ := hsim
  cases hq : (stabilize sensor1 n (primed sensor1 garbage1 p1 tr1)).equilibrium with
  | false => exact Or.inl ⟨by simp [loop, hq], by simp [loop, ← he, hq]⟩
  | true =>
    refine Or.inr ⟨delay 20000 (stabilize sensor1 n (primed sensor1 garbage1 p1 tr1)),
      delay 20000 (stabilize sensor2 n (primed sensor2 garbage2 p2 tr2)),
      e ++ [Event.delay 20000], by simp only [loop, hq, if_true],
      by simp only [loop, ← he, hq, if_true], ?_, ?_⟩
    · simp only [delay, e1, List.append_assoc]
    · simp only [delay, e2, List.append_assoc]

/-- C9, at two cycles over the rationals with all samples 25, one entered on
a stack of zeros at position 0, one on a stack of 99s at position 7 after an
earlier `println`. -/
theorem C9_no_state_crosses_cycles_witness :
    Sim 0 7 [] [Event.println 3]
      (stabilize (fun _ => (25 : ℚ)) 2 (primed (fun _ => (25 : ℚ)) (fun _ => 0) 0 []))
      (stabilize (fun _ => (25 : ℚ)) 2
        (primed (fun _ => (25 : ℚ)) (fun _ => 99) 7 [Event.println 3])) :=
  (C9_no_state_crosses_cycles (fun _ => (25 : ℚ)) (fun _ => (25 : ℚ)) (fun _ => 0)
    (fun _ => 99) 0 7 [] [Event.println 3] 2 (fun _ => rfl)).2.2.2.1

/-- C10: the conversion is deterministic and pure.  For a raw reading `r` in
`(0, 1023]`, two calls of `readTemperature()` that read `r` from the pin, in
any two program states and at any two positions of any two input streams,
return the same value, the conversion of `r`, which is not NaN, so that the
two results are also equal for the comparison `==` of the floats: for
`r <= 1022` it is the temperature of the formula (plus infinity if the
denominator is zero), for `r = 1023` it is -273.15.  A call changes nothing
of the program state but the input position and the trace: `readings`,
`index` and `equilibrium` are as they were. -/
theorem C10_conversion_deterministic {α : Type} [LinearOrderedField α] (logf : α → α)
    (analog1 analog2 : Nat → Int) (st1 st2 : State (FVal α)) (r : Int)
    (h0 : 0 < r) (h1 : r ≤ 1023)
    (e1 : analog1 st1.pos = r) (e2 : analog2 st2.pos = r) :
    (readTemperatureCall logf analog1 st1).1 = readTemperatureIEEE logf r ∧
    (readTemperatureCall logf analog2 st2).1 = (readTemperatureCall logf analog1 st1).1 ∧
    (readTemperatureCall logf analog1 st1).1 ≠ FVal.nan ∧
    FVal.feq (readTemperatureCall logf analog1 st1).1
      (readTemperatureCall logf analog2 st2).1 = true ∧
    (r ≤ 1022 → (readTemperatureCall logf analog1 st1).1 =
      if logf (resistance r / 10000) / (B : α) + 1 / (29815 / 100) = 0 then FVal.pinf
      else FVal.fin (readTemperature logf r)) ∧
    (r = 1023 → (readTemperatureCall logf analog1 st1).1 = FVal.fin (-(27315 / 100))) ∧
    (readTemperatureCall logf analog1 st1).2.readings = st1.readings ∧
    (readTemperatureCall logf analog1 st1).2.index = st1.index ∧
    (readTemperatureCall logf analog1 st1).2.equilibrium = st1.equilibrium ∧
    (readTemperatureCall logf analog1 st1).2.pos = st1.pos + 1 := by
  have hv1 : (readTemperatureCall logf analog1 st1).1 = readTemperatureIEEE logf r := by
    simp only [readTemperatureCall, readSample, e1]
  have hv2 : (readTemperatureCall logf analog2 st2).1 = readTemperatureIEEE logf r := by
    simp only [readTemperatureCall, readSample, e2]
  have hint := readTemperatureIEEE_interior logf r (by omega)
  have hnan := readTemperatureIEEE_ne_nan logf r h0 h1
  refine ⟨hv1, by rw [hv1, hv2], by rw [hv1]; exact hnan,
    by rw [hv1, hv2]; exact FVal.feq_self _ hnan, fun h => by rw [hv1]; exact hint h,
    fun h => by rw [hv1, h]; exact readTemperatureIEEE_top logf, rfl, rfl, rfl, rfl⟩

/-- C10, at raw reading 1023 read in two different states from two different
streams, over the rationals with a stand-in for the logarithm: both calls
return -273.15. -/
theorem C10_conversion_deterministic_witness :
    (readTemperatureCall (fun x => x - 1) (fun n => if n = 4 then 1023 else 7)
        (⟨fun _ => FVal.fin 3, 5, true, 4, [Event.delay 1000]⟩ : State (FVal ℚ))).1
      = (readTemperatureCall (fun x => x - 1) (fun _ => 1023)
        (⟨fun _ => FVal.nan, 0, false, 0, []⟩ : State (FVal ℚ))).1 ∧
    (readTemperatureCall (fun x => x - 1) (fun _ => 1023)
        (⟨fun _ => FVal.nan, 0, false, 0, []⟩ : State (FVal ℚ))).1
      = FVal.fin (-(27315 / 100)) :=
  ⟨(C10_conversion_deterministic (fun x : ℚ => x - 1) (fun _ => 1023)
    (fun n => if n = 4 then 1023 else 7) ⟨fun _ => FVal.nan, 0, false, 0, []⟩
    ⟨fun _ => FVal.fin 3, 5, true, 4, [Event.delay 1000]⟩ 1023 (by decide) (by decide)
    rfl rfl).2.1,
   (C10_conversion_deterministic (fun x : ℚ => x - 1) (fun _ => 1023)
    (fun n => if n = 4 then 1023 else 7) ⟨fun _ => FVal.nan, 0, false, 0, []⟩
    ⟨fun _ => FVal.fin 3, 5, true, 4, [Event.delay 1000]⟩ 1023 (by decide) (by decide)
    rfl rfl).2.2.2.2.2.1 rfl⟩

/-! ## Order of the window -/

/-- Every state the loop reaches holds the last 10 samples read in order of
acquisition from slot `index` on. -/
theorem stabilize_order {α : Type} [LinearOrderedField α] (sensor garbage : Nat → α) (p : Nat)
    (tr : List (Event α)) (n i : Nat) (hi : i < 10) :
    (stabilize sensor n (primed sensor garbage p tr)).readings
        (((stabilize sensor n (primed sensor garbage p tr)).index + i) % 10)
      = sensor ((stabilize sensor n (primed sensor garbage p tr)).pos - 10 + i) := by
  obtain ⟨j, _, e⟩ := stabilize_eq_iterate sensor n (primed sensor garbage p tr)
  obtain ⟨h1, h2, h3⟩ := ring_invariant sensor garbage p tr j
  rw [e, h1, h2, show (j % 10 + i) % 10 = (j + i) % 10 by omega, h3 i hi]
  congr 1; omega

/-- C11: at the start of stabilization iteration `j + 1` (after `j` runs of the
body, `j = 0` being the state after priming) `index` is `j % 10`, slot
`(index + i) % 10` holds sample number `j + i` of the cycle for `i = 0..9`, so
the slots read from `index` on give the window oldest first and
`readings[index]` is the oldest sample `s_j`; the iteration writes the new
sample `s_(j+10)` into that slot, leaves every other slot unchanged and sets
`index` to `(index + 1) % 10`.  The same order holds in every state the
`while` loop reaches, whatever the iteration cap. -/
theorem C11_oldest_slot_overwritten {α : Type} [LinearOrderedField α]
    (sensor garbage : Nat → α) (p : Nat) (tr : List (Event α)) (j : Nat) :
    ((iter sensor)^[j] (primed sensor garbage p tr)).index = j % 10 ∧
    (∀ i, i < 10 →
      ((iter sensor)^[j] (primed sensor garbage p tr)).readings
          ((((iter sensor)^[j] (primed sensor garbage p tr)).index + i) % 10)
        = sensor (p + j + i)) ∧
    ((iter sensor)^[j] (primed sensor garbage p tr)).readings
        ((iter sensor)^[j] (primed sensor garbage p tr)).index = sensor (p + j) ∧
    (iter sensor ((iter sensor)^[j] (primed sensor garbage p tr))).readings
        ((iter sensor)^[j] (primed sensor garbage p tr)).index = sensor (p + j + 10) ∧
    (∀ k, k ≠ ((iter sensor)^[j] (primed sensor garbage p tr)).index →
      (iter sensor ((iter sensor)^[j] (primed sensor garbage p tr))).readings k
        = ((iter sensor)^[j] (primed sensor garbage p tr)).readings k) ∧
    (iter sensor ((iter sensor)^[j] (primed sensor garbage p tr))).index
      = (((iter sensor)^[j] (primed sensor garbage p tr)).index + 1) % 10 ∧
    (∀ n i, i < 10 →
      (stabilize sensor n (primed sensor garbage p tr)).readings
          (((stabilize sensor n (primed sensor garbage p tr)).index + i) % 10)
        = sensor ((stabilize sensor n (primed sensor garbage p tr)).pos - 10 + i)) := by
  obtain ⟨h1, h2, h3⟩ := ring_invariant sensor garbage p tr j
  refine ⟨h1, fun i hi => ?_, ?_, ?_, fun k hk => ?_, iter_index _ _,
    fun n i hi => stabilize_order sensor garbage p tr n i hi⟩
  · rw [h1, show (j % 10 + i) % 10 = (j + i) % 10 by omega, h3 i hi]
  · have := h3 0 (by omega)
    rw [Nat.add_zero, Nat.add_zero] at this
    rw [h1, this]
  · rw [iter_readings, Function.update_same, h2]; congr 1; omega
  · rw [iter_readings, Function.update_noteq hk]

/-- C12: after the linear scan `minTemp` is the value of one of the 10 slots
and is below every slot, `maxTemp` is the value of one of the 10 slots and is
above every slot; so the test `(maxTemp - minTemp) < 0.2` holds exactly when
any two of the 10 values differ by less than 0.2. -/
theorem C12_scan_computes_range {α : Type} [LinearOrderedField α] (readings : Nat → α) :
    (∃ i, i < 10 ∧ (scan readings).1 = readings i) ∧
    (∀ i, i < 10 → (scan readings).1 ≤ readings i) ∧
    (∃ i, i < 10 ∧ (scan readings).2 = readings i) ∧
    (∀ i, i < 10 → readings i ≤ (scan readings).2) ∧
    (stable readings = true ↔
      ∀ i j, i < 10 → j < 10 → |readings i - readings j| < threshold) := by
  refine ⟨scan_min_mem readings, fun i hi => (scan_bounds readings i hi).1,
    scan_max_mem readings, fun i hi => (scan_bounds readings i hi).2, ?_⟩
  rw [stable_iff]
  constructor
  · intro h i j hi hj
    exact abs_lt.mpr ⟨by have := h j i hj hi; linarith, h i j hi hj⟩
  · intro h i j hi hj
    exact (abs_lt.mp (h i j hi hj)).2

/-! ## The closed form of a cycle -/

/-- The range of ten consecutive samples is below the threshold exactly when
any two of them are closer than the threshold. -/
theorem windowMax_sub_windowMin_lt {α : Type} [LinearOrderedField α] (sensor : Nat → α)
    (a : Nat) :
    windowMax sensor a - windowMin sensor a < threshold ↔
      ∀ i j, i < 10 → j < 10 → sensor (a + i) - sensor (a + j) < threshold := by
  constructor
  · intro h i j hi hj
    have h1 : sensor (a + i) ≤ windowMax sensor a :=
      Finset.le_sup' (fun i => sensor (a + i)) (by simpa [windowSize] using hi)
    have h2 : windowMin sensor a ≤ sensor (a + j) :=
      Finset.inf'_le (fun i => sensor (a + i)) (by simpa [windowSize] using hj)
    linarith
  · intro h
    obtain ⟨i, hi, ei⟩ := Finset.exists_mem_eq_sup' (s := Finset.range windowSize)
      ⟨0, by simp [windowSize]⟩ (fun i => sensor (a + i))
    obtain ⟨j, hj, ej⟩ := Finset.exists_mem_eq_inf' (s := Finset.range windowSize)
      ⟨0, by simp [windowSize]⟩ (fun i => sensor (a + i))
    simp only [windowMax, windowMin, ei, ej]
    exact h i j (by simpa [windowSize] using hi) (by simpa [windowSize] using hj)

/-- The test of iteration `j` is the test on the samples `j, ..., j + 9` of
the cycle. -/
theorem stable_iterate_iff {α : Type} [LinearOrderedField α] (sensor garbage : Nat → α)
    (p : Nat) (tr : List (Event α)) (j : Nat) :
    stable ((iter sensor)^[j] (primed sensor garbage p tr)).readings = true ↔
      windowMax sensor (p + j) - windowMin sensor (p + j) < threshold := by
  have h3 := (ring_invariant sensor garbage p tr j).2.2
  rw [stable_iff, windowMax_sub_windowMin_lt]
  constructor
  · intro h a b ha hb
    have := h ((j + a) % 10) ((j + b) % 10) (by omega) (by omega)
    rwa [h3 a ha, h3 b hb] at this
  · intro h a b ha hb
    have ea := h3 ((a + 10 - j % 10) % 10) (by omega)
    have eb := h3 ((b + 10 - j % 10) % 10) (by omega)
    rw [show (j + (a + 10 - j % 10) % 10) % 10 = a by omega] at ea
    rw [show (j + (b + 10 - j % 10) % 10) % 10 = b by omega] at eb
    rw [ea, eb]
    exact h _ _ (by omega) (by omega)

/-- The `while` loop has printed exactly when it has ended. -/
theorem emitted_stabilize_ne_iff {α : Type} [LinearOrderedField α] (sensor garbage : Nat → α)
    (p : Nat) (tr : List (Event α)) (n : Nat) :
    emitted (stabilize sensor n (primed sensor garbage p tr)).trace ≠ emitted tr ↔
      (stabilize sensor n (primed sensor garbage p tr)).equilibrium = true := by
  obtain ⟨l, h1, h2⟩ := stabilize_emitted sensor n _ (primed_equilibrium sensor garbage p tr)
  rw [h1, emitted_primed]
  cases hq : (stabilize sensor n (primed sensor garbage p tr)).equilibrium with
  | true =>
    rw [hq] at h2
    simp only [if_true] at h2
    have hl : l ≠ [] := by intro e; rw [e] at h2; simp at h2
    simpa using hl
  | false =>
    rw [hq] at h2
    simp only [Bool.false_eq_true, if_false, List.length_eq_zero] at h2
    simp [h2]

/-- C13: the closed form of one cycle, with `s_m` the sample number `p + m`
of the sensor.  For every iteration cap the cycle has printed exactly when
`loop()` returns, and `loop()` returns (for some cap) if and only if there
is `k >= 1` with `max(s_k..s_(k+9)) - min(s_k..s_(k+9)) < 0.2`; and for the
least such `k`, `loop()` has not returned within fewer than `k` iterations,
and with any cap `n >= k` it returns having printed exactly `s_(k+9)`, read
exactly `k + 10` samples and run exactly `k` iterations of the `while` loop. -/
theorem C13_closed_form_of_cycle {α : Type} [LinearOrderedField α]
    (sensor garbage : Nat → α) (p : Nat) (tr : List (Event α)) :
    (∀ n, emitted (stabilize sensor n (primed sensor garbage p tr)).trace ≠ emitted tr ↔
      ∃ st, loop sensor n garbage p tr = some st) ∧
    ((∃ n st, loop sensor n garbage p tr = some st) ↔
      ∃ k, 1 ≤ k ∧ windowMax sensor (p + k) - windowMin sensor (p + k) < threshold) ∧
    (∀ k, 1 ≤ k → windowMax sensor (p + k) - windowMin sensor (p + k) < threshold →
      (∀ i, 1 ≤ i → i < k →
        ¬ (windowMax sensor (p + i) - windowMin sensor (p + i) < threshold)) →
      (∀ n, n < k → loop sensor n garbage p tr = none) ∧
      (∀ n, k ≤ n → ∃ st, loop sensor n garbage p tr = some st ∧
        emitted st.trace = emitted tr ++ [sensor (p + k + 9)] ∧
        st.pos = p + k + 10 ∧
        stabilize sensor n (primed sensor garbage p tr)
          = (iter sensor)^[k] (primed sensor garbage p tr))) := by
  have least : ∀ k, 1 ≤ k → windowMax sensor (p + k) - windowMin sensor (p + k) < threshold →
      (∀ i, 1 ≤ i → i < k →
        ¬ (windowMax sensor (p + i) - windowMin sensor (p + i) < threshold)) →
      (∀ n, n < k → loop sensor n garbage p tr = none) ∧
      (∀ n, k ≤ n → ∃ st, loop sensor n garbage p tr = some st ∧
        emitted st.trace = emitted tr ++ [sensor (p + k + 9)] ∧
        st.pos = p + k + 10 ∧
        stabilize sensor n (primed sensor garbage p tr)
          = (iter sensor)^[k] (primed sensor garbage p tr)) := by
    intro k hk hs hmin
    have hu : ∀ i, 1 ≤ i → i < k →
        stable ((iter sensor)^[i] (primed sensor garbage p tr)).readings = false := by
      intro i hi hik
      rw [← Bool.not_eq_true, stable_iterate_iff]
      exact hmin i hi hik
    have hs' := (stable_iterate_iff sensor garbage p tr k).mpr hs
    constructor
    · intro n hn
      exact (cycle_unstable sensor garbage p tr n (fun i hi hin => hu i hi (by omega))).2.2
    · intro n hn
      obtain ⟨st, e1, e2, e3⟩ := loop_first sensor garbage p tr n k hk hn hu hs'
      refine ⟨st, e1, ?_, by rw [e2]; omega,
        (cycle_first sensor garbage p tr n k hk hn hu hs').1⟩
      rw [e3, show p + 9 + k = p + k + 9 by omega]
  refine ⟨fun n => ?_, ⟨?_, ?_⟩, least⟩
  · rw [emitted_stabilize_ne_iff]
    cases hq : (stabilize sensor n (primed sensor garbage p tr)).equilibrium with
    | true => simp [loop, hq]
    | false => simp [loop, hq]
  · rintro ⟨n, st, h⟩
    simp only [loop] at h
    split at h
    · next he =>
      obtain ⟨k, _, _, e2, _⟩ := stabilize_exit sensor n _ (primed_equilibrium ..) he
      rw [← Function.iterate_succ_apply' (iter sensor) k, stable_iterate_iff] at e2
      exact ⟨k + 1, by omega, e2⟩
    · exact absurd h (by simp)
  · intro hex
    classical
    have hk := Nat.find_spec hex
    obtain ⟨st, e, _⟩ := (least (Nat.find hex) hk.1 hk.2
      (fun i hi hik hst => Nat.find_min hex hik ⟨hi, hst⟩)).2 (Nat.find hex) le_rfl
    exact ⟨Nat.find hex, st, e⟩

/-- C13, over the rationals: samples 0 up to number 9, then 1; the least `k`
with a stable window `s_k..s_(k+9)` is 10 and with cap 12 `loop()` returns
after 20 samples having printed sample 19. -/
theorem C13_closed_form_of_cycle_witness :
    ∃ st, loop (fun m => if m < 10 then (0 : ℚ) else 1) 12 (fun _ => 0) 0 [] = some st ∧
      emitted st.trace = emitted [] ++ [(fun m => if m < 10 then (0 : ℚ) else 1) (0 + 10 + 9)] ∧
      st.pos = 0 + 10 + 10 ∧
      stabilize (fun m => if m < 10 then (0 : ℚ) else 1) 12
          (primed (fun m => if m < 10 then (0 : ℚ) else 1) (fun _ => 0) 0 [])
        = (iter (fun m => if m < 10 then (0 : ℚ) else 1))^[10]
          (primed (fun m => if m < 10 then (0 : ℚ) else 1) (fun _ => 0) 0 []) :=
  ((C13_closed_form_of_cycle (fun m => if m < 10 then (0 : ℚ) else 1) (fun _ => 0) 0 []).2.2 10
    (by decide)
    ((windowMax_sub_windowMin_lt _ _).mpr (fun i j _ _ => by simp [threshold]))
    (fun i hi hik h => by
      have := (windowMax_sub_windowMin_lt _ _).mp h (10 - i) 0 (by omega) (by omega)
      rw [if_neg (by omega), if_pos (by omega)] at this
      norm_num [threshold] at this)).2 12 (by decide)

/-! ## The first priming sample -/

theorem primeEvents_head {α : Type} (sensor : Nat → α) (p n : Nat) :
    primeEvents sensor p (n + 1) =
      Event.sample (sensor p) :: Event.delay 1000 :: primeEvents sensor (p + 1) n := by
  simp [primeEvents, List.range_succ_eq_map, List.flatMap_cons, List.flatMap_map, Nat.add_assoc,
    Nat.add_comm 1]

theorem primeEvents_congr {α : Type} (s1 s2 : Nat → α) (p n : Nat)
    (h : ∀ k, s1 (p + k) = s2 (p + k)) : primeEvents s1 p n = primeEvents s2 p n := by
  simp only [primeEvents, h]

/-- Two cycles whose samples agree from the second on are in simulation after
the first iteration of the `while` loop. -/
theorem first_iter_sim {α : Type} [LinearOrderedField α] (s1 s2 g1 g2 : Nat → α) (p : Nat)
    (tr : List (Event α)) (h : ∀ k, 1 ≤ k → s1 (p + k) = s2 (p + k)) :
    Sim (p + 1) (p + 1) (tr ++ [Event.sample (s1 p)]) (tr ++ [Event.sample (s2 p)])
      (iter s1 (primed s1 g1 p tr)) (iter s2 (primed s2 g2 p tr)) := by
  have hr : ∀ i, i < 10 →
      Function.update (primed s1 g1 p tr).readings (primed s1 g1 p tr).index
          (s1 (primed s1 g1 p tr).pos) i
        = Function.update (primed s2 g2 p tr).readings (primed s2 g2 p tr).index
          (s2 (primed s2 g2 p tr).pos) i := by
    intro i hi
    simp only [primed_index, primed_pos, Function.update_apply, primed_readings, if_pos hi]
    by_cases h0 : i = 0
    · rw [if_pos h0, if_pos h0]; exact h 10 (by omega)
    · rw [if_neg h0, if_neg h0]; exact h i (by omega)
  have hst := stable_congr _ _ hr
  have hev : primeEvents s1 (p + 1) 9 = primeEvents s2 (p + 1) 9 :=
    primeEvents_congr s1 s2 (p + 1) 9 (fun k => by
      rw [show p + 1 + k = p + (1 + k) by omega]; exact h _ (by omega))
  have hv : s1 (p + 10) = s2 (p + 10) := h 10 (by omega)
  refine ⟨by rw [iter_index, iter_index, primed_index, primed_index],
    by rw [iter_index, primed_index]; omega,
    by rw [iter_equilibrium, iter_equilibrium, iter_readings, iter_readings, hst,
      primed_equilibrium, primed_equilibrium],
    ⟨10, by rw [iter_pos, primed_pos], by rw [iter_pos, primed_pos]⟩, ?_,
    by rw [iter_readings, iter_readings]; exact hr⟩
  cases hs1 : stable (Function.update (primed s1 g1 p tr).readings (primed s1 g1 p tr).index
      (s1 (primed s1 g1 p tr).pos)) with
  | true =>
    have hs2 := hst ▸ hs1
    rw [iter_trace_stable s1 _ hs1, iter_trace_stable s2 _ hs2,
      emit_slot _ _ _ (by rw [primed_index]; omega),
      emit_slot _ _ _ (by rw [primed_index]; omega), primed_trace, primed_trace, primed_pos,
      primed_pos, primeEvents_head s1 p 9, primeEvents_head s2 p 9, hev, hv]
    exact ⟨Event.delay 1000 :: (primeEvents s2 (p + 1) 9 ++
      [Event.sample (s2 (p + 10)), Event.println (s2 (p + 10)), Event.delay 1000]),
      by simp, by simp⟩
  | false =>
    have hs2 := hst ▸ hs1
    rw [iter_trace_unstable s1 _ hs1, iter_trace_unstable s2 _ hs2, primed_trace, primed_trace,
      primed_pos, primed_pos, primeEvents_head s1 p 9, primeEvents_head s2 p 9, hev, hv]
    exact ⟨Event.delay 1000 :: (primeEvents s2 (p + 1) 9 ++
      [Event.sample (s2 (p + 10)), Event.delay 1000]), by simp, by simp⟩

/-- Two cycles whose samples agree from the second on: same number of samples
read, same `equilibrium`, same values printed, for every iteration cap. -/
theorem stabilize_first_sample {α : Type} [LinearOrderedField α] (s1 s2 g1 g2 : Nat → α)
    (p : Nat) (tr : List (Event α)) (h : ∀ k, 1 ≤ k → s1 (p + k) = s2 (p + k)) (n : Nat) :
    (stabilize s1 n (primed s1 g1 p tr)).pos = (stabilize s2 n (primed s2 g2 p tr)).pos ∧
    (stabilize s1 n (primed s1 g1 p tr)).equilibrium
      = (stabilize s2 n (primed s2 g2 p tr)).equilibrium ∧
    emitted (stabilize s1 n (primed s1 g1 p tr)).trace
      = emitted (stabilize s2 n (primed s2 g2 p tr)).trace := by
  cases n with
  | zero =>
    simp only [stabilize, primed_pos, primed_equilibrium, emitted_primed, and_self]
  | succ n =>
    rw [stabilize_succ_of_not _ _ _ (primed_equilibrium ..),
      stabilize_succ_of_not _ _ _ (primed_equilibrium ..)]
    obtain ⟨_, _, he, ⟨c, c1, c2⟩, ⟨e, e1, e2⟩, _⟩ :=
      stabilize_sim s1 s2 (p + 1) (p + 1) _ _
        (fun k => by rw [show p + 1 + k = p + (1 + k) by omega]; exact h _ (by omega)) n _ _
        (first_iter_sim s1 s2 g1 g2 p tr h)
    refine ⟨by rw [c1, c2], he, ?_⟩
    rw [e1, e2]
    simp only [emitted_append]
    rfl

/-- C14: the primed window is never tested and the first priming sample is
never used.  For two cycles whose samples agree from the second on (they may
differ in `s_0`, and in the stack garbage), for every iteration cap: the
`while` loop has read the same number of samples (run the same number of
iterations), has the same `equilibrium` and has printed the same values, and
`loop()` returns in both, with the same values printed, or in none.  Whatever
the ten priming samples, a cycle has printed nothing before its 11th sample is
read, and `loop()` does not return without an iteration of the `while` loop. -/
theorem C14_first_priming_sample_unused {α : Type} [LinearOrderedField α]
    (s1 s2 g1 g2 : Nat → α) (p : Nat) (tr : List (Event α))
    (h : ∀ k, 1 ≤ k → s1 (p + k) = s2 (p + k)) :
    (∀ n,
      (stabilize s1 n (primed s1 g1 p tr)).pos = (stabilize s2 n (primed s2 g2 p tr)).pos ∧
      (stabilize s1 n (primed s1 g1 p tr)).equilibrium
        = (stabilize s2 n (primed s2 g2 p tr)).equilibrium ∧
      emitted (stabilize s1 n (primed s1 g1 p tr)).trace
        = emitted (stabilize s2 n (primed s2 g2 p tr)).trace) ∧
    (∀ n, (loop s1 n g1 p tr = none ∧ loop s2 n g2 p tr = none) ∨
      ∃ st1 st2, loop s1 n g1 p tr = some st1 ∧ loop s2 n g2 p tr = some st2 ∧
        st1.pos = st2.pos ∧ emitted st1.trace = emitted st2.trace) ∧
    (∀ n, emitted (stabilize s1 n (primed s1 g1 p tr)).trace ≠ emitted tr →
      p + 11 ≤ (stabilize s1 n (primed s1 g1 p tr)).pos) ∧
    loop s1 0 g1 p tr = none := by
  refine ⟨stabilize_first_sample s1 s2 g1 g2 p tr h, fun n => ?_, fun n hne => ?_, ?_⟩
  · obtain ⟨e1, e2, e3⟩ := stabilize_first_sample s1 s2 g1 g2 p tr h n
    cases hq : (stabilize s1 n (primed s1 g1 p tr)).equilibrium with
    | false => exact Or.inl ⟨by simp [loop, hq], by simp [loop, ← e2, hq]⟩
    | true =>
      refine Or.inr ⟨delay 20000 (stabilize s1 n (primed s1 g1 p tr)),
        delay 20000 (stabilize s2 n (primed s2 g2 p tr)),
        by simp only [loop, hq, if_true], by simp only [loop, ← e2, hq, if_true], e1, ?_⟩
      simp only [delay, emitted_append, e3]
  · rw [emitted_stabilize_ne_iff] at hne
    obtain ⟨k, _, _, _, e⟩ := stabilize_exit s1 n _ (primed_equilibrium s1 g1 p tr) hne
    rw [e, iter_pos, iterate_pos, primed_pos]
    omega
  · simp [loop, stabilize, primed_equilibrium]

/-- C14, over the rationals: first sample 100 against 25, all later samples
25, cap 1. -/
theorem C14_first_priming_sample_unused_witness :
    (stabilize (fun m => if m = 0 then (100 : ℚ) else 25) 1
        (primed (fun m => if m = 0 then (100 : ℚ) else 25) (fun _ => 0) 0 [])).pos
      = (stabilize (fun _ => (25 : ℚ)) 1 (primed (fun _ => (25 : ℚ)) (fun _ => 0) 0 [])).pos ∧
    (stabilize (fun m => if m = 0 then (100 : ℚ) else 25) 1
        (primed (fun m => if m = 0 then (100 : ℚ) else 25) (fun _ => 0) 0 [])).equilibrium
      = (stabilize (fun _ => (25 : ℚ)) 1
        (primed (fun _ => (25 : ℚ)) (fun _ => 0) 0 [])).equilibrium ∧
    emitted (stabilize (fun m => if m = 0 then (100 : ℚ) else 25) 1
        (primed (fun m => if m = 0 then (100 : ℚ) else 25) (fun _ => 0) 0 [])).trace
      = emitted (stabilize (fun _ => (25 : ℚ)) 1
        (primed (fun _ => (25 : ℚ)) (fun _ => 0) 0 [])).trace :=
  (C14_first_priming_sample_unused (fun m => if m = 0 then (100 : ℚ) else 25)
    (fun _ => (25 : ℚ)) (fun _ => 0) (fun _ => 0) 0 []
    (fun k hk => if_neg (by omega))).1 1

/-! ## Bounds of the subscripts -/

/-- Nothing is written at a subscript from 10 on. -/
theorem iterate_frame {α : Type} [LinearOrderedField α] (sensor garbage : Nat → α) (p : Nat)
    (tr : List (Event α)) (j k : Nat) (hk : 10 ≤ k) :
    ((iter sensor)^[j] (primed sensor garbage p tr)).readings k = garbage k := by
  induction j with
  | zero =>
    rw [Function.iterate_zero, id_eq, primed_readings, if_neg (by omega)]
  | succ j ih =>
    have hi := iterate_index_lt sensor (primed sensor garbage p tr)
      (by rw [primed_index]; omega) j
    rw [Function.iterate_succ_apply', iter_readings, Function.update_noteq (by omega), ih]

/-- C15: all window accesses are in bounds.  `index` is in `0..9` when
`loop()` is entered, after any number of rounds of the priming loop, after any
number of iterations of the `while` loop and in every state the loop reaches;
the priming loop variable runs over `0..9` and the scan loop variable over
`1..9` (the scan also reads slot 0); the emit subscript
`index == 0 ? 9 : index - 1` is in `0..9` after every iteration; no slot from
10 on is ever written, and an iteration started in two states that agree on
the slots `0..9` gives two states that agree on them, whatever lies outside
the array. -/
theorem C15_accesses_in_bounds {α : Type} [LinearOrderedField α]
    (sensor garbage : Nat → α) (p : Nat) (tr : List (Event α)) :
    (enter garbage p tr).index < windowSize ∧
    (∀ m, ((List.range m).foldl (primeStep sensor) (enter garbage p tr)).index < windowSize) ∧
    (∀ j, ((iter sensor)^[j] (primed sensor garbage p tr)).index < windowSize) ∧
    (∀ n, (stabilize sensor n (primed sensor garbage p tr)).index < windowSize) ∧
    (∀ i, i ∈ List.range windowSize → i < 10) ∧
    (∀ i, i ∈ List.range' 1 (windowSize - 1) → 1 ≤ i ∧ i < 10) ∧
    (∀ j, (if ((iter sensor)^[j + 1] (primed sensor garbage p tr)).index = 0 then windowSize - 1
        else ((iter sensor)^[j + 1] (primed sensor garbage p tr)).index - 1) < windowSize) ∧
    (∀ n k, 10 ≤ k → (stabilize sensor n (primed sensor garbage p tr)).readings k = garbage k) ∧
    (∀ a b : State α, Sim p p tr tr a b → Sim p p tr tr (iter sensor a) (iter sensor b)) := by
  have hidx : ∀ j, ((iter sensor)^[j] (primed sensor garbage p tr)).index < windowSize :=
    fun j => iterate_index_lt sensor _ (by rw [primed_index]; omega) j
  refine ⟨by simp [enter, windowSize], fun m => ?_, hidx, fun n => ?_, fun i hi => ?_,
    fun i hi => ?_, fun j => ?_, fun n k hk => ?_,
    fun a b hab => iter_sim sensor sensor p p tr tr (fun _ => rfl) a b hab⟩
  · rw [(primeFold_spec sensor (enter garbage p tr) m).2.1]; simp [enter, windowSize]
  · obtain ⟨j, _, e⟩ := stabilize_eq_iterate sensor n (primed sensor garbage p tr)
    rw [e]; exact hidx j
  · simpa [windowSize] using hi
  · rw [List.mem_range'_1] at hi; simp only [windowSize] at hi; omega
  · have := hidx (j + 1)
    simp only [windowSize] at this ⊢
    split <;> omega
  · obtain ⟨j, _, e⟩ := stabilize_eq_iterate sensor n (primed sensor garbage p tr)
    rw [e]; exact iterate_frame sensor garbage p tr j k hk

/-- C15, over the rationals: two states that agree on the slots `0..9` and
differ at slot 10 agree on the slots `0..9` after an iteration. -/
theorem C15_accesses_in_bounds_witness :
    Sim 0 0 [] []
      (iter (fun _ => (25 : ℚ)) ⟨fun i => if i = 10 then 7 else 25, 3, false, 10, []⟩)
      (iter (fun _ => (25 : ℚ)) ⟨fun _ => 25, 3, false, 10, []⟩) :=
  (C15_accesses_in_bounds (fun _ => (25 : ℚ)) (fun _ => 0) 0 []).2.2.2.2.2.2.2.2
    ⟨fun i => if i = 10 then 7 else 25, 3, false, 10, []⟩ ⟨fun _ => 25, 3, false, 10, []⟩
    ⟨rfl, by decide, rfl, ⟨10, rfl, rfl⟩, ⟨[], rfl, rfl⟩,
      fun i hi => if_neg (by omega)⟩

/-! ## The conversion on the interior range -/

/-- Over the reals `resistance / 10000` is `(1023 - r) / r`. -/
theorem resistance_ratio (r : Int) (hr : 1 ≤ r) :
    (resistance r : ℝ) / 10000 = (1023 - r) / r := by
  have h0 : (r : ℝ) ≠ 0 := by
    have : (1 : ℝ) ≤ r := by exact_mod_cast hr
    linarith
  simp only [resistance]; push_cast; field_simp; ring

/-- The bound `ln 1022 <= ln 2^13 <= 13`. -/
theorem log_1022_le : Real.log 1022 ≤ 13 := by
  have h2 : Real.log 2 ≤ 1 := by
    have := Real.log_le_sub_one_of_pos (show (0 : ℝ) < 2 by norm_num)
    linarith
  have h : Real.log 1022 ≤ Real.log ((2 : ℝ) ^ 13) :=
    Real.log_le_log (by norm_num) (by norm_num)
  rw [Real.log_pow] at h
  push_cast at h
  linarith

/-- On `1..1022` the logarithm of the resistance ratio is at least `-13`. -/
theorem log_ratio_ge (r : Int) (h1 : 1 ≤ r) (h2 : r ≤ 1022) :
    -13 ≤ Real.log ((1023 - r) / r) := by
  have hr1 : (1 : ℝ) ≤ r := by exact_mod_cast h1
  have hr2 : (r : ℝ) ≤ 1022 := by exact_mod_cast h2
  have hx : (1 / 1022 : ℝ) ≤ (1023 - r) / r := by
    rw [div_le_div_iff₀ (by norm_num) (by linarith)]; linarith
  have h := Real.log_le_log (by norm_num) hx
  rw [one_div, Real.log_inv] at h
  have := log_1022_le
  linarith

/-- On `1..1022` the denominator of the conversion is positive. -/
theorem denominator_pos (r : Int) (h1 : 1 ≤ r) (h2 : r ≤ 1022) :
    0 < Real.log ((1023 - r) / r) / 3975 + 1 / (29815 / 100) := by
  have h := log_ratio_ge r h1 h2
  have : -13 / 3975 ≤ Real.log ((1023 - r) / r) / 3975 := by gcongr
  norm_num at this ⊢
  linarith

/-- The resistance ratio decreases strictly with the raw reading. -/
theorem ratio_antitone (r1 r2 : Int) (h1 : 1 ≤ r1) (h12 : r1 < r2) :
    ((1023 - r2 : ℝ)) / r2 < (1023 - r1) / r1 := by
  have a1 : (1 : ℝ) ≤ r1 := by exact_mod_cast h1
  have a2 : (r1 : ℝ) < r2 := by exact_mod_cast h12
  rw [div_lt_div_iff₀ (by linarith) (by linarith)]
  nlinarith

/-- The temperature increases strictly with the raw reading on `1..1022`. -/
theorem temp_strictMono (r1 r2 : Int) (h1 : 1 ≤ r1) (h12 : r1 < r2) (h2 : r2 ≤ 1022) :
    readTemperatureReal r1 < readTemperatureReal r2 := by
  have a1 : (1 : ℝ) ≤ r1 := by exact_mod_cast h1
  have a2 : (r1 : ℝ) < r2 := by exact_mod_cast h12
  have a3 : (r2 : ℝ) ≤ 1022 := by exact_mod_cast h2
  have hx2 : (0 : ℝ) < (1023 - r2) / r2 := div_pos (by linarith) (by linarith)
  have hlog := Real.log_lt_log hx2 (ratio_antitone r1 r2 h1 h12)
  have hd2 := denominator_pos r2 (by omega) h2
  have hd : Real.log ((1023 - r2) / r2) / 3975 + 1 / (29815 / 100)
      < Real.log ((1023 - r1) / r1) / 3975 + 1 / (29815 / 100) := by
    have : Real.log ((1023 - r2) / r2) / 3975 < Real.log ((1023 - r1) / r1) / 3975 := by
      gcongr
    linarith
  have := one_div_lt_one_div_of_lt hd2 hd
  simp only [readTemperatureReal, readTemperature, resistance_ratio r1 h1,
    resistance_ratio r2 (by omega), B]
  push_cast
  linarith

/-- C16: over the reals, for every integer raw reading `r` with
`1 <= r <= 1022`: the divisor `r` is not zero, the resistance
`(1023 - r) * 10000 / r` is strictly positive, so is the argument
`resistance / 10000` of the logarithm, the denominator
`ln(resistance/10000)/3975 + 1/298.15` is strictly positive, and the
temperature returned is strictly greater than -273.15. -/
theorem C16_conversion_well_defined (r : Int) (h1 : 1 ≤ r) (h2 : r ≤ 1022) :
    (r : ℝ) ≠ 0 ∧
    (resistance r : ℝ) = (1023 - r) * 10000 / r ∧
    0 < (resistance r : ℝ) ∧
    0 < (resistance r : ℝ) / 10000 ∧
    0 < Real.log (resistance r / 10000) / (B : ℝ) + 1 / 298.15 ∧
    -273.15 < readTemperatureReal r := by
  have hr1 : (1 : ℝ) ≤ r := by exact_mod_cast h1
  have hr2 : (r : ℝ) ≤ 1022 := by exact_mod_cast h2
  have hres : (resistance r : ℝ) = (1023 - r) * 10000 / r := by
    simp only [resistance]; push_cast; ring
  have hpos : 0 < (resistance r : ℝ) := by
    rw [hres]; exact div_pos (by nlinarith) (by linarith)
  have hd := denominator_pos r h1 h2
  refine ⟨by linarith, hres, hpos, by positivity, ?_, ?_⟩
  · rw [resistance_ratio r h1]
    simp only [B]; push_cast
    norm_num at hd ⊢
    exact hd
  · have h := one_div_pos.mpr hd
    simp only [readTemperatureReal, readTemperature, resistance_ratio r h1, B]
    push_cast
    norm_num at h ⊢
    linarith

/-- C16, at raw reading 512. -/
theorem C16_conversion_well_defined_witness : -273.15 < readTemperatureReal 512 :=
  (C16_conversion_well_defined 512 (by decide) (by decide)).2.2.2.2.2

/-- C17: over the reals, for all integer raw readings `1 <= r1 < r2 <= 1022`
the resistance of `r1` is strictly greater than that of `r2` and the
temperature of `r1` strictly less than that of `r2`; so two distinct raw
readings in `1..1022` never give the same temperature. -/
theorem C17_conversion_strictly_monotone (r1 r2 : Int) (h1 : 1 ≤ r1) (h12 : r1 < r2)
    (h2 : r2 ≤ 1022) :
    (resistance r2 : ℝ) < resistance r1 ∧
    readTemperatureReal r1 < readTemperatureReal r2 ∧
    (∀ a b : Int, 1 ≤ a → a ≤ 1022 → 1 ≤ b → b ≤ 1022 → a ≠ b →
      readTemperatureReal a ≠ readTemperatureReal b) := by
  refine ⟨?_, temp_strictMono r1 r2 h1 h12 h2, fun a b ha1 ha2 hb1 hb2 hab => ?_⟩
  · have h := ratio_antitone r1 r2 h1 h12
    rw [← resistance_ratio r1 h1, ← resistance_ratio r2 (by omega)] at h
    linarith
  · rcases lt_or_gt_of_ne hab with hlt | hgt
    · exact ne_of_lt (temp_strictMono a b ha1 hlt hb2)
    · exact ne_of_gt (temp_strictMono b a hb1 hgt ha2)

/-- C17, at raw readings 400 and 410. -/
theorem C17_conversion_strictly_monotone_witness :
    (resistance (410 : Int) : ℝ) < resistance (400 : Int) ∧
    readTemperatureReal 400 < readTemperatureReal 410 :=
  ⟨(C17_conversion_strictly_monotone 400 410 (by decide) (by decide) (by decide)).1,
    (C17_conversion_strictly_monotone 400 410 (by decide) (by decide) (by decide)).2.1⟩

/-! ## The two models of the conversion -/

/-- With the real logarithm, on `1..1022` the conversion with special values
returns the finite temperature of the conversion over the reals. -/
theorem readTemperatureIEEE_real (r : Int) (h1 : 1 ≤ r) (h2 : r ≤ 1022) :
    readTemperatureIEEE Real.log r = FVal.fin (readTemperatureReal r) := by
  have hd := denominator_pos r h1 h2
  rw [readTemperatureIEEE_interior Real.log r h1 h2, if_neg, readTemperatureReal]
  rw [resistance_ratio r h1]
  simp only [B]; push_cast
  exact ne_of_gt hd

/-- Below the range of the pin the conversion takes the logarithm of a
negative number: the result is NaN, which is not equal to itself for `==`. -/
theorem readTemperatureIEEE_negative {α : Type} [LinearOrderedField α] (logf : α → α) :
    readTemperatureIEEE logf (-1) = FVal.nan ∧
    FVal.feq (readTemperatureIEEE logf (-1)) (readTemperatureIEEE logf (-1)) = false := by
  have h : readTemperatureIEEE logf (-1) = FVal.nan := by
    have hres : resistanceIEEE (-1 : Int) = (FVal.fin (-10240000) : FVal α) := by
      simp only [resistanceIEEE, FVal.mul]
      rw [FVal.div_fin _ _ (by norm_num)]
      norm_num
    have hlog : FVal.log logf (FVal.fin (-10240000 / 10000 : α)) = FVal.nan := by
      simp only [FVal.log]
      rw [if_neg (by norm_num), if_neg (by norm_num)]
    unfold readTemperatureIEEE
    rw [hres, FVal.div_fin _ _ (by norm_num), hlog, FVal.div_fin (1 : α) _ (by norm_num)]
    rfl
  rw [h]
  exact ⟨rfl, rfl⟩

end Medisyn
